import Mathlib

/-!
# Validator: a shallow embedding of `validator.go`

The Go package exposes one function, `Validate(v any) error`, which walks the
visible fields of a struct through `reflect`, reads each field's `validate`
tag and checks the field's value against the rule the tag names.

Modelling choices.

* A Go `string` is a Lean `String`; Go's `len` is the UTF-8 byte size.
  The separators the program splits on (`:` and `,`) and the characters
  `strconv.Atoi` accepts are ASCII, so working on characters instead of bytes
  changes nothing.
* A Go `int` is a Lean `Int`; the program only compares integers, it never
  does arithmetic on them.  `strconv.Atoi` is modelled for a 64-bit `int`.
* What `reflect` gives the program is modelled as data: the dynamic type of
  the argument (kind, name, visible fields) and the table `FieldByName` reads.
* A run-time panic (nil dereference, index out of range) is an explicit
  outcome, so that "returns normally" can be stated.
-/

namespace Validator

/-! ## Errors -/

/-- The package-level error values of `validator.go` (lines 10 to 18). -/
inductive Err
  | ErrNotStruct
  | ErrInvalidValidatorSyntax
  | ErrValidateForUnexportedFields
  | ErrWrongValue
  | ErrWrongIn
  | ErrWrongMin
  | ErrWrongMax
  | ErrWrongMinMax
  deriving DecidableEq, Repr

/-- The message each error value was created with (`errors.New`). -/
def Err.Error : Err → String
  | .ErrNotStruct => "wrong argument given, should be a struct"
  | .ErrInvalidValidatorSyntax => "invalid validator syntax"
  | .ErrValidateForUnexportedFields => "validation for unexported field is not allowed"
  | .ErrWrongValue => "Variable value not validated"
  | .ErrWrongIn => "'in' is empty"
  | .ErrWrongMin => "min tag is incorrect"
  | .ErrWrongMax => "max tag is incorrect"
  | .ErrWrongMinMax => "minmax tag is incorrect"

/-- The struct `ValidationError` of the source: one wrapped cause. -/
structure ValidationError where
  Err : Err
  deriving DecidableEq, Repr

/-- The slice type `ValidationErrors` of the source. -/
abbrev ValidationErrors := List ValidationError

/-- A non-nil value of Go's `error` interface, as `Validate` can return it:
one of the package-level error values, or a `ValidationErrors` list. -/
inductive error
  | sentinel (e : Err)
  | list (errs : ValidationErrors)
  deriving DecidableEq, Repr

/-- What a call of `Validate` does: it returns an `error` (`none` is Go's
`nil`), or it panics. -/
inductive Result
  | returns (err : Option error)
  | panics
  deriving DecidableEq, Repr

/-! ## Library functions the program calls -/

/-- Go's built-in `len` on a string: the number of bytes. -/
def len (s : String) : Nat := s.utf8ByteSize

/-- Splitting a character list at every occurrence of `sep`. The result has
one more element than there are separators, so it is never empty. -/
def splitChars (sep : Char) : List Char → List (List Char)
  | [] => [[]]
  | c :: cs =>
    if c = sep then [] :: splitChars sep cs
    else
      match splitChars sep cs with
      | [] => [[c]]
      | w :: ws => (c :: w) :: ws

/-- Go's `strings.Split(s, sep)` for a one-character separator, the only way
the program calls it (`":"` and `","`). -/
def strings.Split (s : String) (sep : Char) : List String :=
  (splitChars sep s.data).map String.mk

/-- The decimal value of a run of ASCII digits, `none` when some character is
not a digit. -/
def parseDigits : List Char → Nat → Option Nat
  | [], acc => some acc
  | c :: cs, acc =>
    if 48 ≤ c.toNat ∧ c.toNat ≤ 57 then parseDigits cs (acc * 10 + (c.toNat - 48))
    else none

/-- The sign and digit characters of a number: an optional leading `-` or `+`
is split off. -/
def splitSign : List Char → Bool × List Char
  | c :: cs => if c = '-' then (true, cs) else if c = '+' then (false, cs) else (false, c :: cs)
  | [] => (false, [])

/-- Go's `strconv.Atoi` on a 64-bit platform: an optional sign followed by one
or more decimal digits whose value fits an `int`. `none` stands for a non-nil
error (syntax or range); the integer Go returns next to a non-nil error is
dropped by the only caller, `getInt`. -/
def strconv.Atoi (s : String) : Option Int :=
  match splitSign s.data with
  | (_, []) => none
  | (neg, ds) =>
    match parseDigits ds 0 with
    | none => none
    | some n =>
      if neg then (if n ≤ 2 ^ 63 then some (-(n : Int)) else none)
      else (if n < 2 ^ 63 then some (n : Int) else none)

/-! ## What `reflect` shows of the argument -/

/-- The kinds of `reflect.Kind`. -/
inductive Kind
  | Invalid | Bool | Int | Int8 | Int16 | Int32 | Int64
  | Uint | Uint8 | Uint16 | Uint32 | Uint64 | Uintptr
  | Float32 | Float64 | Complex64 | Complex128
  | Array | Chan | Func | Interface | Map | Pointer | Slice
  | String | Struct | UnsafePointer
  deriving DecidableEq, Repr

/-- A struct tag (`reflect.StructTag`): the tag text as written in the struct
declaration, and the `key:"value"` pairs that text parses to under the
conventional format, in order. -/
structure StructTag where
  raw : String
  pairs : List (String × String)
  deriving DecidableEq, Repr

/-- The method `StructTag.Get`: the value of the first pair with the given
key, the empty string when there is none. -/
def StructTag.Get (tag : StructTag) (key : String) : String :=
  match tag.pairs.lookup key with
  | some value => value
  | none => ""

/-- The part of `reflect.StructField` the program reads. -/
structure StructField where
  Name : String
  PkgPath : String
  Tag : StructTag
  deriving DecidableEq, Repr

/-- The method `StructField.IsExported`: a field is exported when its
`PkgPath` is empty. -/
def StructField.IsExported (f : StructField) : Bool := f.PkgPath == ""

/-- A `reflect.Value`: its kind, the name of its type (`Type().String()`), and
its payload when the kind is `Int` (field `i`) or `String` (field `s`). -/
structure Value where
  kind : Kind
  typ : String
  i : Int
  s : String
  deriving DecidableEq, Repr

/-- The zero `reflect.Value`, which `FieldByName` returns for an unknown
name. -/
def Value.zero : Value := ⟨Kind.Invalid, "", 0, ""⟩

/-- The method `Value.Kind`. -/
def Value.Kind (f : Value) : Kind := f.kind

/-- The method `Value.Int`. In Go it panics on a kind that is not a signed
integer; the program calls it only behind `f.Kind() == reflect.Int`. -/
def Value.Int (f : Value) : Int := f.i

/-- The method `Value.String`: the string itself for kind `String`; for any
other kind it does not panic but returns the text `<T Value>`, with `T` the
name of the type (and `<invalid Value>` for the zero value). -/
def Value.String (f : Value) : String :=
  if f.kind = Kind.String then f.s
  else if f.kind = Kind.Invalid then "<invalid Value>"
  else "<" ++ f.typ ++ " Value>"

/-- The dynamic type of a value (`reflect.Type`): its kind, its name, and for
a struct type the fields `reflect.VisibleFields` lists, in declaration
order. -/
structure RType where
  kind : Kind
  name : String
  fields : List StructField
  deriving DecidableEq, Repr

/-- A non-nil interface value: its dynamic type and, for a struct, the value
`FieldByName` finds under each field name. -/
structure Iface where
  typ : RType
  values : List (String × Value)
  deriving DecidableEq, Repr

/-- Go's `any`: `none` is the nil interface. -/
abbrev GoAny := Option Iface

/-- Go's `reflect.TypeOf`: it returns a nil `Type` for the nil interface. -/
def reflect.TypeOf (v : GoAny) : Option RType := v.map (fun x => x.typ)

/-- Go's `reflect.VisibleFields` on a struct type. -/
def reflect.VisibleFields (t : RType) : List StructField := t.fields

/-! ## The program -/

/-- The constant `ValidateTag`. -/
def ValidateTag : String := "validate"

/-- The constant `Sep`. -/
def Sep : Char := ':'

/-- Go's `strings.Join`: the elements, with `sep` between neighbours. -/
def strings.Join : List String → String → String
  | [], _ => ""
  | [a], _ => a
  | a :: b :: rest, sep => a ++ sep ++ strings.Join (b :: rest) sep

/-- Method `Error` of `ValidationErrors` (lines 26 to 32). -/
def ValidationErrors.Error (v : ValidationErrors) : String :=
  strings.Join (v.map (fun m => m.Err.Error)) ", "

/-- Function `getInt` of the source. The pair is `(value, err != nil)`: on a
parse error the value is `0`. -/
def getInt (str : String) : Int × Bool :=
  match strconv.Atoi str with
  | none => (0, true)
  | some val => (val, false)

/-- Function `getField` of the source:
`reflect.Indirect(reflect.ValueOf(v)).FieldByName(fName)`. On a struct it is
the field's value, or the zero value when no field has that name. `none`: the
argument is not a struct, where `FieldByName` panics (the pointer case of
`Indirect` is not modelled; `Validate` calls `getField` on a struct only). -/
def getField (v : GoAny) (fName : String) : Option Value :=
  match v with
  | none => none
  | some x =>
    if x.typ.kind = Kind.Struct then
      match x.values.lookup fName with
      | some f => some f
      | none => some Value.zero
    else none

/-- Function `Contains` of the source. -/
def Contains {T : Type} [DecidableEq T] : List T → T → Bool
  | [], _ => false
  | s :: elems, v => if v = s then true else Contains elems v

/-- The loop of `validateInts`: `ints` is the slice built so far; the first
element that does not parse makes the function return nil. -/
def validateIntsLoop : List String → List Int → List Int
  | [], ints => ints
  | s :: strs, ints =>
    if (getInt s).2 then []
    else validateIntsLoop strs (ints ++ [(getInt s).1])

/-- Function `validateInts` of the source. A Go slice built by `append` from a
nil slice is nil exactly when it is empty, so nil is modelled by `[]` and the
test `ints != nil` by `ints ≠ []`. -/
def validateInts (strs : List String) : List Int := validateIntsLoop strs []

/-- The type `Predicate` of the source. -/
abbrev Predicate := Value → Bool

/-- Function `validateTagWithPredicate` of the source; `none` when `getField`
panics. -/
def validateTagWithPredicate (v : GoAny) (structFieldName : String) (pred : Predicate) :
    Option Bool :=
  match getField v structFieldName with
  | none => none
  | some f => some (pred f)

/-- How one pass through the body of the `for` loop of `Validate` ends. -/
inductive Step
  | next (errs : ValidationErrors)
  | ret (errs : ValidationErrors)
  | panic
  deriving DecidableEq, Repr

/-- The common tail of the five rules: `if !validateTagWithPredicate(...)`
appends `ErrWrongValue`, and the loop goes on. -/
def checkValue (errs : ValidationErrors) : Option Bool → Step
  | none => Step.panic
  | some ok => if !ok then Step.next (errs ++ [⟨Err.ErrWrongValue⟩]) else Step.next errs

/-- The predicate of the `len` rule (lines 98 to 100). -/
def lenPred (requiredLen : Int) : Predicate :=
  fun f => decide ((len f.String : Int) = requiredLen)

/-- The predicate of the `in` rule (lines 110 to 121). -/
def inPred (valList : List String) : Predicate :=
  fun f =>
    let flag := false
    let flag :=
      if f.Kind = Kind.Int then
        (if validateInts valList ≠ [] ∧ Contains (validateInts valList) f.Int = true
          then true else flag)
      else flag
    let flag :=
      if f.Kind = Kind.String ∧ Contains valList f.String = true then true else flag
    flag

/-- The predicate of the `min` rule (lines 131 to 134). -/
def minPred (minVal : Int) : Predicate :=
  fun f => (decide (f.Kind = Kind.Int) && decide (f.Int ≥ minVal)) ||
    (decide (f.Kind = Kind.String) && decide ((len f.String : Int) ≥ minVal))

/-- The predicate of the `max` rule (lines 144 to 147). -/
def maxPred (maxVal : Int) : Predicate :=
  fun f => (decide (f.Kind = Kind.Int) && decide (f.Int ≤ maxVal)) ||
    (decide (f.Kind = Kind.String) && decide ((len f.String : Int) ≤ maxVal))

/-- The predicate of the `minmax` rule (lines 163 to 166). -/
def minmaxPred (minVal maxVal : Int) : Predicate :=
  fun f => (decide (f.Kind = Kind.Int) && decide (f.Int ≥ minVal) && decide (f.Int ≤ maxVal)) ||
    (decide (f.Kind = Kind.String) && decide ((len f.String : Int) ≥ minVal) &&
      decide ((len f.String : Int) ≤ maxVal))

/-- The `switch tagValue[0]` of `Validate` (lines 91 to 169), given the
elements `tagValue[0]` and `tagValue[1]` (`none` when the index is out of
range, where Go panics as soon as the element is read). -/
def validateRule (v : GoAny) (structField : StructField) (errs : ValidationErrors)
    (rule : String) (arg : Option String) : Step :=
  if rule = "len" then
    match arg with
    | none => Step.panic
    | some a =>
      if (getInt a).2 then Step.next (errs ++ [⟨Err.ErrInvalidValidatorSyntax⟩])
      else checkValue errs (validateTagWithPredicate v structField.Name (lenPred (getInt a).1))
  else if rule = "in" then
    match arg with
    | none => Step.panic
    | some a =>
      match strings.Split a ',' with
      | [] => Step.panic
      | first :: more =>
        if first = "" then Step.next (errs ++ [⟨Err.ErrWrongIn⟩])
        else checkValue errs (validateTagWithPredicate v structField.Name (inPred (first :: more)))
  else if rule = "min" then
    match arg with
    | none => Step.panic
    | some a =>
      if (getInt a).2 then Step.next (errs ++ [⟨Err.ErrWrongMin⟩])
      else checkValue errs (validateTagWithPredicate v structField.Name (minPred (getInt a).1))
  else if rule = "max" then
    match arg with
    | none => Step.panic
    | some a =>
      if (getInt a).2 then Step.next (errs ++ [⟨Err.ErrWrongMax⟩])
      else checkValue errs (validateTagWithPredicate v structField.Name (maxPred (getInt a).1))
  else if rule = "minmax" then
    match arg with
    | none => Step.panic
    | some a =>
      match strings.Split a ',' with
      | [lo, hi] =>
        -- line 156: minVal, err := getInt(lo); line 157 assigns err again
        let minVal := (getInt lo).1
        let maxVal := (getInt hi).1
        let err := (getInt hi).2
        if err then Step.next (errs ++ [⟨Err.ErrWrongMinMax⟩])
        else checkValue errs (validateTagWithPredicate v structField.Name (minmaxPred minVal maxVal))
      | _ => Step.ret (errs ++ [⟨Err.ErrWrongMinMax⟩])
  else Step.next errs

/-- The body of the `for` loop of `Validate` (lines 87 to 171) for one field,
with the errors collected so far. -/
def validateField (v : GoAny) (structField : StructField) (errs : ValidationErrors) : Step :=
  if !structField.IsExported && structField.Tag.raw != "" then
    Step.next (errs ++ [⟨Err.ErrValidateForUnexportedFields⟩])
  else if structField.IsExported && structField.Tag.raw != "" then
    match strings.Split (structField.Tag.Get ValidateTag) Sep with
    | [] => Step.panic
    | [rule] => validateRule v structField errs rule none
    | rule :: a :: _ => validateRule v structField errs rule (some a)
  else Step.next errs

/-- The `for` loop of `Validate` over the fields still to visit. It stops at
the `return errs` of line 154 and at a panic. -/
def runFields (v : GoAny) : List StructField → ValidationErrors → Step
  | [], errs => Step.next errs
  | structField :: rest, errs =>
    match validateField v structField errs with
    | Step.next errs1 => runFields v rest errs1
    | Step.ret errs1 => Step.ret errs1
    | Step.panic => Step.panic

/-- The end of `Validate`: after the loop, lines 174 to 177 (`nil` for an
empty list); the `return errs` inside the loop returns the list as it is. -/
def conclude : Step → Result
  | Step.next errs => if errs.length = 0 then Result.returns none
      else Result.returns (some (error.list errs))
  | Step.ret errs => Result.returns (some (error.list errs))
  | Step.panic => Result.panics

/-- Function `Validate` of the source. Calling `Kind()` on the nil `Type`
that `reflect.TypeOf(nil)` returns is a nil dereference. -/
def Validate (v : GoAny) : Result :=
  match reflect.TypeOf v with
  | none => Result.panics
  | some t =>
    if t.kind ≠ Kind.Struct then Result.returns (some (error.sentinel Err.ErrNotStruct))
    else conclude (runFields v (reflect.VisibleFields t) [])

/-- The outcome of a run of fields, put after errors collected earlier. -/
def Step.after (errs : ValidationErrors) : Step → Step
  | Step.next e => Step.next (errs ++ e)
  | Step.ret e => Step.ret (errs ++ e)
  | Step.panic => Step.panic

/-! ## Inputs used as examples -/

/-- A struct tag holding the single key `validate`, as written
`validate:"..."` in a struct declaration. -/
def validateTag (rule : String) : StructTag :=
  ⟨"validate:" ++ String.mk [Char.ofNat 34] ++ rule ++ String.mk [Char.ofNat 34],
    [("validate", rule)]⟩

/-- A struct tag holding the single pair `key:"value"`. -/
def keyTag (key value : String) : StructTag :=
  ⟨key ++ ":" ++ String.mk [Char.ofNat 34] ++ value ++ String.mk [Char.ofNat 34],
    [(key, value)]⟩

/-- An exported field with a `validate` annotation. -/
def exportedField (name rule : String) : StructField :=
  ⟨name, "", validateTag rule⟩

/-- An unexported field (of package `main`) with a `validate` annotation. -/
def unexportedField (name rule : String) : StructField :=
  ⟨name, "main", validateTag rule⟩

/-- A field without tag. -/
def untaggedField (name pkgPath : String) : StructField :=
  ⟨name, pkgPath, ⟨"", []⟩⟩

/-- A value of type `int`. -/
def intValue (n : Int) : Value := ⟨Kind.Int, "int", n, ""⟩

/-- A value of type `string`. -/
def stringValue (s : String) : Value := ⟨Kind.String, "string", 0, s⟩

/-- A value of type `bool` (the program never reads the boolean itself). -/
def boolValue : Value := ⟨Kind.Bool, "bool", 0, ""⟩

/-- A struct value of type `main.T` from its fields and their values. -/
def structOf (fields : List (StructField × Value)) : GoAny :=
  some ⟨⟨Kind.Struct, "main.T", fields.map (fun p => p.1)⟩,
    fields.map (fun p => (p.1.Name, p.2))⟩

/-! ## General facts about the loop -/

theorem checkValue_after (errs : ValidationErrors) (r : Option Bool) :
    checkValue errs r = Step.after errs (checkValue [] r) := by
  cases r with
  | none => rfl
  | some ok => cases ok <;> simp [checkValue, Step.after]

theorem validateRule_after (v : GoAny) (sf : StructField) (errs : ValidationErrors)
    (rule : String) (arg : Option String) :
    validateRule v sf errs rule arg = Step.after errs (validateRule v sf [] rule arg) := by
  unfold validateRule
  cases arg <;> simp only [] <;> split_ifs <;> (try split) <;> (try split_ifs) <;>
    first
    | (simp [Step.after]; done)
    | exact checkValue_after _ _

theorem validateField_after (v : GoAny) (sf : StructField) (errs : ValidationErrors) :
    validateField v sf errs = Step.after errs (validateField v sf []) := by
  unfold validateField
  split_ifs <;> (try split) <;>
    first
    | (simp [Step.after]; done)
    | exact validateRule_after _ _ _ _ _

theorem Step.after_after (a b : ValidationErrors) (s : Step) :
    Step.after a (Step.after b s) = Step.after (a ++ b) s := by
  cases s <;> simp [Step.after]

theorem Step.after_nil (s : Step) : Step.after [] s = s := by
  cases s <;> simp [Step.after]

theorem runFields_after (v : GoAny) (fields : List StructField) (errs : ValidationErrors) :
    runFields v fields errs = Step.after errs (runFields v fields []) := by
  induction fields generalizing errs with
  | nil => simp [runFields, Step.after]
  | cons sf rest ih =>
    simp only [runFields]
    rw [validateField_after v sf errs]
    cases h : validateField v sf [] with
    | next e =>
      simp only [Step.after]
      rw [ih (errs ++ e), ih e]
      cases runFields v rest [] <;> simp [Step.after]
    | ret e => simp [Step.after]
    | panic => simp [Step.after]

theorem runFields_append (v : GoAny) (pre post : List StructField)
    (errs e1 : ValidationErrors) (h : runFields v pre errs = Step.next e1) :
    runFields v (pre ++ post) errs = runFields v post e1 := by
  induction pre generalizing errs with
  | nil =>
    simp only [runFields, Step.next.injEq] at h
    simp [h]
  | cons sf rest ih =>
    simp only [List.cons_append, runFields] at h ⊢
    cases hs : validateField v sf errs with
    | next e => rw [hs] at h; exact ih e h
    | ret e => rw [hs] at h; cases h
    | panic => rw [hs] at h; cases h

/-- When the fields before `sf` run to completion with the errors `e1` and the
body of the loop, run on `sf`, goes on with the errors `e2`, the call yields
`e2` followed by what the fields after `sf` produce. -/
theorem Validate_of_next (x : Iface) (pre post : List StructField) (sf : StructField)
    (e1 e2 : ValidationErrors)
    (hk : x.typ.kind = Kind.Struct) (hf : x.typ.fields = pre ++ sf :: post)
    (hpre : runFields (some x) pre [] = Step.next e1)
    (hsf : validateField (some x) sf e1 = Step.next e2) :
    Validate (some x) = conclude (Step.after e2 (runFields (some x) post [])) := by
  simp only [Validate, reflect.TypeOf, Option.map, hk, reflect.VisibleFields, hf, ne_eq,
    not_true_eq_false, if_false]
  rw [runFields_append _ _ _ _ _ hpre]
  simp only [runFields, hsf]
  rw [runFields_after]

/-- When the fields before `sf` run to completion with the errors `e1` and the
body of the loop, run on `sf`, executes `return errs` with the list `e2`, the
call returns `e2`. -/
theorem Validate_of_ret (x : Iface) (pre post : List StructField) (sf : StructField)
    (e1 e2 : ValidationErrors)
    (hk : x.typ.kind = Kind.Struct) (hf : x.typ.fields = pre ++ sf :: post)
    (hpre : runFields (some x) pre [] = Step.next e1)
    (hsf : validateField (some x) sf e1 = Step.ret e2) :
    Validate (some x) = Result.returns (some (error.list e2)) := by
  simp only [Validate, reflect.TypeOf, Option.map, hk, reflect.VisibleFields, hf, ne_eq,
    not_true_eq_false, if_false]
  rw [runFields_append _ _ _ _ _ hpre]
  simp only [runFields, hsf, conclude]

/-- A non-nil argument whose kind is not `Struct` is rejected with
`ErrNotStruct` itself, whatever its fields and values are. -/
theorem Validate_not_struct (x : Iface) (hk : x.typ.kind ≠ Kind.Struct) :
    Validate (some x) = Result.returns (some (error.sentinel Err.ErrNotStruct)) := by
  simp [Validate, reflect.TypeOf, hk]

/-! ## Facts about the library functions -/

theorem splitChars_of_not_mem (sep : Char) (cs : List Char) (h : sep ∉ cs) :
    splitChars sep cs = [cs] := by
  induction cs with
  | nil => rfl
  | cons c rest ih =>
    have hc : c ≠ sep := fun e => h (e ▸ List.mem_cons_self _ _)
    have hr : sep ∉ rest := fun m => h (List.mem_cons_of_mem _ m)
    simp [splitChars, hc, ih hr]

theorem splitChars_append_sep (sep : Char) (a b : List Char) (h : sep ∉ a) :
    splitChars sep (a ++ sep :: b) = a :: splitChars sep b := by
  induction a with
  | nil => simp [splitChars]
  | cons c rest ih =>
    have hc : c ≠ sep := fun e => h (e ▸ List.mem_cons_self _ _)
    have hr : sep ∉ rest := fun m => h (List.mem_cons_of_mem _ m)
    simp [splitChars, hc, ih hr]

theorem parseDigits_digits (cs : List Char) (acc n : Nat) (h : parseDigits cs acc = some n) :
    ∀ c ∈ cs, 48 ≤ c.toNat ∧ c.toNat ≤ 57 := by
  induction cs generalizing acc with
  | nil => intro c hc; cases hc
  | cons d rest ih =>
    intro c hc
    simp only [parseDigits] at h
    split_ifs at h with hd
    rcases List.mem_cons.mp hc with rfl | hm
    · exact hd
    · exact ih _ h c hm

/-- A string `strconv.Atoi` accepts holds a sign and digits only: no `:`. -/
theorem Atoi_no_colon (s : String) (n : Int) (h : strconv.Atoi s = some n) :
    ':' ∉ s.data := by
  unfold strconv.Atoi at h
  split at h
  · cases h
  · rename_i neg ds hne hs
    cases hp : parseDigits ds 0 with
    | none => rw [hp] at h; cases h
    | some m =>
      have hd := parseDigits_digits ds 0 m hp
      have hds : ':' ∉ ds := by
        intro hm
        have := hd _ hm
        revert this
        decide
      cases hdata : s.data with
      | nil => simp
      | cons c cs =>
        rw [hdata] at hs
        simp only [splitSign] at hs
        split_ifs at hs with h1 h2
        · simp only [Prod.mk.injEq] at hs
          rw [h1, hs.2]
          intro hm
          rcases List.mem_cons.mp hm with e | e
          · revert e; decide
          · exact hds e
        · simp only [Prod.mk.injEq] at hs
          rw [h2, hs.2]
          intro hm
          rcases List.mem_cons.mp hm with e | e
          · revert e; decide
          · exact hds e
        · simp only [Prod.mk.injEq] at hs
          rw [hs.2]
          exact hds

theorem getInt_of_Atoi (s : String) (n : Int) (h : strconv.Atoi s = some n) :
    getInt s = (n, false) := by
  simp [getInt, h]

theorem getInt_err_iff (s : String) : (getInt s).2 = true ↔ strconv.Atoi s = none := by
  unfold getInt
  cases strconv.Atoi s <;> simp

theorem getInt_fst (s : String) (n : Int) (h : strconv.Atoi s = some n) :
    (getInt s).1 = n := by
  simp [getInt, h]

/-- An annotation `rule:arg` whose argument holds no `:` splits into exactly
the rule name and the argument. -/
theorem Split_rule_arg (rule arg : String) (hr : ':' ∉ rule.data) (ha : ':' ∉ arg.data) :
    strings.Split (rule ++ ":" ++ arg) Sep = [rule, arg] := by
  have hdata : (rule ++ ":" ++ arg).data = rule.data ++ ':' :: arg.data := by
    simp [String.data_append]
  simp only [strings.Split, hdata, Sep]
  rw [splitChars_append_sep _ _ _ hr, splitChars_of_not_mem _ _ ha]
  simp

theorem Contains_iff {T : Type} [DecidableEq T] (elems : List T) (v : T) :
    Contains elems v = true ↔ v ∈ elems := by
  induction elems with
  | nil => simp [Contains]
  | cons s rest ih =>
    simp only [Contains, List.mem_cons]
    split_ifs with h
    · simp [h]
    · simp [h, ih]

theorem validateIntsLoop_eq (strs : List String) (ints : List Int) :
    validateIntsLoop strs ints =
      if ∀ t ∈ strs, (getInt t).2 = false then ints ++ strs.map (fun t => (getInt t).1)
      else [] := by
  induction strs generalizing ints with
  | nil => simp [validateIntsLoop]
  | cons s rest ih =>
    simp only [validateIntsLoop, List.forall_mem_cons, List.map_cons]
    cases hs : (getInt s).2 with
    | true => simp
    | false => simp [ih]

/-- What the integer branch of the `in` predicate tests: every element of the
list parses and the value is one of the parsed integers. -/
theorem validateInts_contains (strs : List String) (i : Int) :
    (validateInts strs ≠ [] ∧ Contains (validateInts strs) i = true) ↔
      ((∀ t ∈ strs, strconv.Atoi t ≠ none) ∧ ∃ t ∈ strs, strconv.Atoi t = some i) := by
  have hall : (∀ t ∈ strs, (getInt t).2 = false) ↔ ∀ t ∈ strs, strconv.Atoi t ≠ none := by
    constructor
    · intro h t ht e
      have := (getInt_err_iff t).mpr e
      rw [h t ht] at this
      cases this
    · intro h t ht
      cases hb : (getInt t).2 with
      | false => rfl
      | true => exact absurd ((getInt_err_iff t).mp hb) (h t ht)
  rw [Contains_iff, validateInts, validateIntsLoop_eq]
  by_cases hp : ∀ t ∈ strs, (getInt t).2 = false
  · rw [if_pos hp]
    simp only [List.nil_append, List.mem_map]
    constructor
    · rintro ⟨_, t, ht, hv⟩
      refine ⟨hall.mp hp, t, ht, ?_⟩
      cases ha : strconv.Atoi t with
      | none => exact absurd ha (hall.mp hp t ht)
      | some n => rw [getInt_fst t n ha] at hv; rw [hv]
    · rintro ⟨_, t, ht, ha⟩
      have hm : ∃ a, a ∈ strs ∧ (getInt a).1 = i := ⟨t, ht, getInt_fst t i ha⟩
      refine ⟨?_, hm⟩
      intro hnil
      have := List.map_eq_nil_iff.mp hnil
      rw [this] at ht
      cases ht
  · rw [if_neg hp]
    constructor
    · rintro ⟨h, _⟩; exact absurd rfl h
    · rintro ⟨h, _⟩; exact absurd (hall.mpr h) hp

theorem checkValue_some (errs : ValidationErrors) (ok : Bool) :
    checkValue errs (some ok) =
      Step.next (if ok = true then errs else errs ++ [⟨Err.ErrWrongValue⟩]) := by
  cases ok <;> simp [checkValue]

theorem validateTagWithPredicate_of_getField (v : GoAny) (name : String) (pred : Predicate)
    (f : Value) (h : getField v name = some f) :
    validateTagWithPredicate v name pred = some (pred f) := by
  simp [validateTagWithPredicate, h]

theorem splitChars_ne_nil (sep : Char) (cs : List Char) : splitChars sep cs ≠ [] := by
  induction cs with
  | nil => simp [splitChars]
  | cons c rest ih =>
    simp only [splitChars]
    split_ifs
    · simp
    · split <;> simp

theorem Split_ne_nil (s : String) (sep : Char) : strings.Split s sep ≠ [] := by
  simp [strings.Split, splitChars_ne_nil]

/-- What the predicate of the `in` rule tests, by the kind of the field. -/
theorem inPred_iff (valList : List String) (f : Value) :
    inPred valList f = true ↔
      ((f.kind = Kind.Int ∧ (∀ t ∈ valList, strconv.Atoi t ≠ none) ∧
          ∃ t ∈ valList, strconv.Atoi t = some f.i) ∨
        (f.kind = Kind.String ∧ f.s ∈ valList)) := by
  have hv := validateInts_contains valList f.i
  by_cases hi : f.kind = Kind.Int
  · have hs : ¬ (Kind.Int = Kind.String) := by decide
    rw [← hv]
    by_cases h : validateInts valList ≠ [] ∧ Contains (validateInts valList) f.i = true
    · simp only [inPred, Value.Kind, Value.Int, hi, if_true, hs, false_and, if_false, h,
        and_self, or_false, true_and, not_false_eq_true, ne_eq]
    · simp only [inPred, Value.Kind, Value.Int, hi, if_true, hs, false_and, if_false, h,
        or_false, true_and, Bool.false_eq_true]
  · by_cases hs : f.kind = Kind.String
    · simp [inPred, Value.Kind, Value.String, hs, Contains_iff]
    · simp [inPred, Value.Kind, hi, hs]

/-! ## Facts about the body of the loop -/

theorem validateField_exported (v : GoAny) (sf : StructField) (errs : ValidationErrors)
    (rule a : String) (more : List String)
    (hexp : sf.IsExported = true) (htag : sf.Tag.raw ≠ "")
    (hsplit : strings.Split (sf.Tag.Get ValidateTag) Sep = rule :: a :: more) :
    validateField v sf errs = validateRule v sf errs rule (some a) := by
  simp only [validateField, hexp, hsplit]
  simp [htag]

theorem validateField_exported_single (v : GoAny) (sf : StructField) (errs : ValidationErrors)
    (rule : String)
    (hexp : sf.IsExported = true) (htag : sf.Tag.raw ≠ "")
    (hsplit : strings.Split (sf.Tag.Get ValidateTag) Sep = [rule]) :
    validateField v sf errs = validateRule v sf errs rule none := by
  simp only [validateField, hexp, hsplit]
  simp [htag]

theorem validateRule_len (v : GoAny) (sf : StructField) (errs : ValidationErrors) (a : String) :
    validateRule v sf errs "len" (some a) =
      if (getInt a).2 = true then Step.next (errs ++ [⟨Err.ErrInvalidValidatorSyntax⟩])
      else checkValue errs (validateTagWithPredicate v sf.Name (lenPred (getInt a).1)) := by
  simp only [validateRule, if_true]

theorem validateRule_min (v : GoAny) (sf : StructField) (errs : ValidationErrors) (a : String) :
    validateRule v sf errs "min" (some a) =
      if (getInt a).2 = true then Step.next (errs ++ [⟨Err.ErrWrongMin⟩])
      else checkValue errs (validateTagWithPredicate v sf.Name (minPred (getInt a).1)) := by
  simp only [validateRule, show ("min" = "len") = False by decide,
    show ("min" = "in") = False by decide, if_false, if_true]

theorem validateRule_max (v : GoAny) (sf : StructField) (errs : ValidationErrors) (a : String) :
    validateRule v sf errs "max" (some a) =
      if (getInt a).2 = true then Step.next (errs ++ [⟨Err.ErrWrongMax⟩])
      else checkValue errs (validateTagWithPredicate v sf.Name (maxPred (getInt a).1)) := by
  simp only [validateRule, show ("max" = "len") = False by decide,
    show ("max" = "in") = False by decide, show ("max" = "min") = False by decide,
    if_false, if_true]

theorem validateRule_minmax_two (v : GoAny) (sf : StructField) (errs : ValidationErrors)
    (a lo hi : String) (h : strings.Split a ',' = [lo, hi]) :
    validateRule v sf errs "minmax" (some a) =
      if (getInt hi).2 = true then Step.next (errs ++ [⟨Err.ErrWrongMinMax⟩])
      else checkValue errs
        (validateTagWithPredicate v sf.Name (minmaxPred (getInt lo).1 (getInt hi).1)) := by
  simp only [validateRule, show ("minmax" = "len") = False by decide,
    show ("minmax" = "in") = False by decide, show ("minmax" = "min") = False by decide,
    show ("minmax" = "max") = False by decide, if_false, if_true, h]

theorem minPred_iff (n : Int) (f : Value) :
    minPred n f = true ↔
      ((f.kind = Kind.Int ∧ n ≤ f.i) ∨ (f.kind = Kind.String ∧ n ≤ (len f.s : Int))) := by
  by_cases hi : f.kind = Kind.Int
  · simp [minPred, Value.Kind, Value.Int, Value.String, hi]
  · by_cases hs : f.kind = Kind.String
    · simp [minPred, Value.Kind, Value.Int, Value.String, hs]
    · simp [minPred, Value.Kind, Value.Int, Value.String, hi, hs]

theorem maxPred_iff (n : Int) (f : Value) :
    maxPred n f = true ↔
      ((f.kind = Kind.Int ∧ f.i ≤ n) ∨ (f.kind = Kind.String ∧ (len f.s : Int) ≤ n)) := by
  by_cases hi : f.kind = Kind.Int
  · simp [maxPred, Value.Kind, Value.Int, Value.String, hi]
  · by_cases hs : f.kind = Kind.String
    · simp [maxPred, Value.Kind, Value.Int, Value.String, hs]
    · simp [maxPred, Value.Kind, Value.Int, Value.String, hi, hs]

theorem minmaxPred_iff (a b : Int) (f : Value) :
    minmaxPred a b f = true ↔
      ((f.kind = Kind.Int ∧ a ≤ f.i ∧ f.i ≤ b) ∨
        (f.kind = Kind.String ∧ a ≤ (len f.s : Int) ∧ (len f.s : Int) ≤ b)) := by
  by_cases hi : f.kind = Kind.Int
  · simp [minmaxPred, Value.Kind, Value.Int, Value.String, hi]
  · by_cases hs : f.kind = Kind.String
    · simp [minmaxPred, Value.Kind, Value.Int, Value.String, hs]
    · simp [minmaxPred, Value.Kind, Value.Int, Value.String, hi, hs]

/-- The step of a field whose predicate `pred` is evaluated on the value `f`,
with the pass condition `P` in place of the predicate. -/
theorem checkValue_pred (v : GoAny) (name : String) (pred : Predicate) (f : Value)
    (errs : ValidationErrors) (P : Prop) [Decidable P]
    (hval : getField v name = some f) (hP : pred f = true ↔ P) :
    checkValue errs (validateTagWithPredicate v name pred) =
      Step.next (if P then errs else errs ++ [⟨Err.ErrWrongValue⟩]) := by
  rw [validateTagWithPredicate_of_getField _ _ _ _ hval, checkValue_some]
  by_cases h : pred f = true
  · rw [if_pos h, if_pos (hP.mp h)]
  · rw [if_neg h, if_neg (fun p => h (hP.mpr p))]

/-- A string `strconv.Atoi` accepts does not hold the character `c` when `c`
is neither a sign nor a digit. -/
theorem Atoi_not_mem (s : String) (n : Int) (c : Char) (h : strconv.Atoi s = some n)
    (h1 : c ≠ '-') (h2 : c ≠ '+') (h3 : ¬ (48 ≤ c.toNat ∧ c.toNat ≤ 57)) :
    c ∉ s.data := by
  unfold strconv.Atoi at h
  split at h
  · cases h
  · rename_i neg ds hne hs
    cases hp : parseDigits ds 0 with
    | none => rw [hp] at h; cases h
    | some m =>
      have hd := parseDigits_digits ds 0 m hp
      have hds : c ∉ ds := fun hm => h3 (hd _ hm)
      cases hdata : s.data with
      | nil => simp
      | cons d cs =>
        rw [hdata] at hs
        simp only [splitSign] at hs
        split_ifs at hs with k1 k2
        · simp only [Prod.mk.injEq] at hs
          rw [k1, hs.2]
          intro hm
          rcases List.mem_cons.mp hm with e | e
          · exact h1 e
          · exact hds e
        · simp only [Prod.mk.injEq] at hs
          rw [k2, hs.2]
          intro hm
          rcases List.mem_cons.mp hm with e | e
          · exact h2 e
          · exact hds e
        · simp only [Prod.mk.injEq] at hs
          rw [hs.2]
          exact hds

theorem Atoi_no_comma (s : String) (n : Int) (h : strconv.Atoi s = some n) :
    ',' ∉ s.data :=
  Atoi_not_mem s n ',' h (by decide) (by decide) (by decide)

/-- Splitting a string whose characters are `a`, the separator, `b`, with no
separator in `a`. -/
theorem Split_of_data (s : String) (sep : Char) (a b : List Char)
    (hs : s.data = a ++ sep :: b) (ha : sep ∉ a) :
    strings.Split s sep = String.mk a :: strings.Split (String.mk b) sep := by
  simp only [strings.Split, hs]
  rw [splitChars_append_sep _ _ _ ha]
  simp

theorem Split_of_not_mem (s : String) (sep : Char) (h : sep ∉ s.data) :
    strings.Split s sep = [s] := by
  simp only [strings.Split]
  rw [splitChars_of_not_mem _ _ h]
  simp

theorem validateRule_unknown (v : GoAny) (sf : StructField) (errs : ValidationErrors)
    (rule : String) (arg : Option String)
    (h : ∀ r ∈ ["len", "in", "min", "max", "minmax"], rule ≠ r) :
    validateRule v sf errs rule arg = Step.next errs := by
  have h1 : rule ≠ "len" := h _ (by simp)
  have h2 : rule ≠ "in" := h _ (by simp)
  have h3 : rule ≠ "min" := h _ (by simp)
  have h4 : rule ≠ "max" := h _ (by simp)
  have h5 : rule ≠ "minmax" := h _ (by simp)
  simp only [validateRule, h1, h2, h3, h4, h5, if_false]

theorem validateRule_in (v : GoAny) (sf : StructField) (errs : ValidationErrors)
    (a first : String) (rest : List String) (h : strings.Split a ',' = first :: rest) :
    validateRule v sf errs "in" (some a) =
      if first = "" then Step.next (errs ++ [⟨Err.ErrWrongIn⟩])
      else checkValue errs (validateTagWithPredicate v sf.Name (inPred (first :: rest))) := by
  simp only [validateRule, show ("in" = "len") = False by decide, if_false, if_true, h]

theorem strings_Join_cons_append (p a sep : String) (l : List String) :
    strings.Join ((p ++ a) :: l) sep = p ++ strings.Join (a :: l) sep := by
  cases l with
  | nil => rfl
  | cons b r => simp only [strings.Join, String.append_assoc]

theorem intercalate_go_eq_Join (sep : String) (l : List String) (acc : String) :
    String.intercalate.go acc sep l = strings.Join (acc :: l) sep := by
  induction l generalizing acc with
  | nil => rfl
  | cons a r ih =>
    simp only [String.intercalate.go]
    rw [ih, strings_Join_cons_append]
    simp only [strings.Join, String.append_assoc]

/-! ## How the loop depends on the record and on the errors collected -/

theorem Validate_struct (x : Iface) (hk : x.typ.kind = Kind.Struct) :
    Validate (some x) = conclude (runFields (some x) x.typ.fields []) := by
  simp [Validate, reflect.TypeOf, reflect.VisibleFields, hk]

theorem validateRule_congr (v w : GoAny) (sf : StructField) (errs : ValidationErrors)
    (rule : String) (arg : Option String)
    (h : getField v sf.Name = getField w sf.Name) :
    validateRule v sf errs rule arg = validateRule w sf errs rule arg := by
  have hc : ∀ pred, validateTagWithPredicate v sf.Name pred =
      validateTagWithPredicate w sf.Name pred := by
    intro pred
    simp only [validateTagWithPredicate, h]
  simp only [validateRule, hc]

/-- The body of the loop reads the record only through the value of the field
it is run on. -/
theorem validateField_congr (v w : GoAny) (sf : StructField) (errs : ValidationErrors)
    (h : getField v sf.Name = getField w sf.Name) :
    validateField v sf errs = validateField w sf errs := by
  simp only [validateField, validateRule_congr v w sf errs _ _ h]

theorem runFields_congr (v w : GoAny) (fields : List StructField) (errs : ValidationErrors)
    (h : ∀ f ∈ fields, getField v f.Name = getField w f.Name) :
    runFields v fields errs = runFields w fields errs := by
  induction fields generalizing errs with
  | nil => rfl
  | cons sf rest ih =>
    simp only [runFields]
    rw [validateField_congr v w sf errs (h sf (List.mem_cons_self _ _))]
    cases validateField w sf errs with
    | next e => exact ih e (fun f hf => h f (List.mem_cons_of_mem _ hf))
    | ret e => rfl
    | panic => rfl

theorem runFields_append_eq (v : GoAny) (pre post : List StructField)
    (errs : ValidationErrors) :
    runFields v (pre ++ post) errs =
      match runFields v pre errs with
      | Step.next e => runFields v post e
      | Step.ret e => Step.ret e
      | Step.panic => Step.panic := by
  induction pre generalizing errs with
  | nil => rfl
  | cons sf rest ih =>
    simp only [List.cons_append, runFields]
    cases validateField v sf errs with
    | next e => exact ih e
    | ret e => rfl
    | panic => rfl

theorem checkValue_shape (errs : ValidationErrors) (r : Option Bool) :
    checkValue errs r = Step.panic ∨ checkValue errs r = Step.next errs ∨
      checkValue errs r = Step.next (errs ++ [⟨Err.ErrWrongValue⟩]) := by
  cases r with
  | none => exact Or.inl rfl
  | some ok => cases ok <;> simp [checkValue]

/-- One pass through the `switch` panics, leaves the errors as they are, or
appends exactly one error (going on or returning). -/
theorem validateRule_shape (v : GoAny) (sf : StructField) (errs : ValidationErrors)
    (rule : String) (arg : Option String) :
    validateRule v sf errs rule arg = Step.panic ∨
      validateRule v sf errs rule arg = Step.next errs ∨
      ∃ e, validateRule v sf errs rule arg = Step.next (errs ++ [e]) ∨
        validateRule v sf errs rule arg = Step.ret (errs ++ [e]) := by
  have hcv : ∀ r, checkValue errs r = Step.panic ∨ checkValue errs r = Step.next errs ∨
      ∃ e, checkValue errs r = Step.next (errs ++ [e]) ∨
        checkValue errs r = Step.ret (errs ++ [e]) := by
    intro r
    rcases checkValue_shape errs r with h | h | h
    · exact Or.inl h
    · exact Or.inr (Or.inl h)
    · exact Or.inr (Or.inr ⟨_, Or.inl h⟩)
  unfold validateRule
  cases arg <;> simp only [] <;> split_ifs <;> (try split) <;> (try split_ifs) <;>
    first
    | exact Or.inl rfl
    | exact Or.inr (Or.inl rfl)
    | exact Or.inr (Or.inr ⟨_, Or.inl rfl⟩)
    | exact Or.inr (Or.inr ⟨_, Or.inr rfl⟩)
    | exact hcv _

/-- One pass through the body of the loop panics, leaves the errors as they
are, or, on a field with a non-empty tag only, appends exactly one error. -/
theorem validateField_shape (v : GoAny) (sf : StructField) (errs : ValidationErrors) :
    validateField v sf errs = Step.panic ∨
      validateField v sf errs = Step.next errs ∨
      (sf.Tag.raw ≠ "" ∧ ∃ e, validateField v sf errs = Step.next (errs ++ [e]) ∨
        validateField v sf errs = Step.ret (errs ++ [e])) := by
  by_cases htag : sf.Tag.raw = ""
  · right; left
    simp [validateField, htag]
  · have hr : ∀ rule arg, validateRule v sf errs rule arg = Step.panic ∨
        validateRule v sf errs rule arg = Step.next errs ∨
        (sf.Tag.raw ≠ "" ∧ ∃ e, validateRule v sf errs rule arg = Step.next (errs ++ [e]) ∨
          validateRule v sf errs rule arg = Step.ret (errs ++ [e])) := by
      intro rule arg
      rcases validateRule_shape v sf errs rule arg with h | h | h
      · exact Or.inl h
      · exact Or.inr (Or.inl h)
      · exact Or.inr (Or.inr ⟨htag, h⟩)
    unfold validateField
    split_ifs
    · exact Or.inr (Or.inr ⟨htag, _, Or.inl rfl⟩)
    · split
      · exact Or.inl rfl
      · exact hr _ _
      · exact hr _ _
    · exact Or.inr (Or.inl rfl)

/-- The number of fields with a non-empty tag. -/
theorem taggedCount_cons (sf : StructField) (rest : List StructField) :
    ((sf :: rest).filter (fun f => f.Tag.raw != "")).length =
      (if sf.Tag.raw = "" then 0 else 1) + (rest.filter (fun f => f.Tag.raw != "")).length := by
  by_cases h : sf.Tag.raw = ""
  · simp [List.filter, h]
  · have hb : (sf.Tag.raw != "") = true := by simp [h]
    rw [List.filter_cons_of_pos (p := fun f : StructField => f.Tag.raw != "") hb, if_neg h,
      List.length_cons, Nat.add_comm]

/-- The loop appends at most one error for each field with a non-empty tag,
and a list it returns from inside is not empty. -/
theorem runFields_length (v : GoAny) (fields : List StructField) (errs : ValidationErrors) :
    (∀ e, runFields v fields errs = Step.next e →
      e.length ≤ errs.length + (fields.filter (fun f => f.Tag.raw != "")).length) ∧
    (∀ e, runFields v fields errs = Step.ret e →
      e ≠ [] ∧ e.length ≤ errs.length + (fields.filter (fun f => f.Tag.raw != "")).length) := by
  induction fields generalizing errs with
  | nil =>
    constructor
    · intro e h
      simp only [runFields, Step.next.injEq] at h
      simp [h]
    · intro e h
      simp [runFields] at h
  | cons sf rest ih =>
    rw [taggedCount_cons]
    simp only [runFields]
    rcases validateField_shape v sf errs with h | h | ⟨htag, e0, h | h⟩
    · rw [h]
      exact ⟨fun e he => (by cases he), fun e he => (by cases he)⟩
    · rw [h]
      simp only []
      have := ih errs
      constructor
      · intro e he
        have := this.1 e he
        omega
      · intro e he
        have := this.2 e he
        exact ⟨this.1, by omega⟩
    · rw [h]
      simp only []
      have := ih (errs ++ [e0])
      simp only [List.length_append, List.length_singleton] at this
      rw [if_neg htag]
      constructor
      · intro e he
        have := this.1 e he
        omega
      · intro e he
        have := this.2 e he
        exact ⟨this.1, by omega⟩
    · rw [h]
      simp only [Step.ret.injEq]
      rw [if_neg htag]
      constructor
      · intro e he
        cases he
      · intro e he
        rw [← he]
        constructor
        · simp
        · simp only [List.length_append, List.length_singleton]
          omega

theorem validateRule_ret (v : GoAny) (sf : StructField) (errs e : ValidationErrors)
    (rule : String) (arg : Option String)
    (h : validateRule v sf errs rule arg = Step.ret e) :
    rule = "minmax" ∧ ∃ a, arg = some a ∧ (strings.Split a ',').length ≠ 2 := by
  have hcv : ∀ r, checkValue errs r ≠ Step.ret e := by
    intro r hr
    rcases checkValue_shape errs r with k | k | k <;> rw [k] at hr <;> cases hr
  unfold validateRule at h
  split_ifs at h with h1 h2 h3 h4 h5
  · cases arg with
    | none => cases h
    | some a =>
      simp only [] at h
      split_ifs at h
      exact absurd h (hcv _)
  · cases arg with
    | none => cases h
    | some a =>
      simp only [] at h
      split at h
      · cases h
      · split_ifs at h
        exact absurd h (hcv _)
  · cases arg with
    | none => cases h
    | some a =>
      simp only [] at h
      split_ifs at h
      exact absurd h (hcv _)
  · cases arg with
    | none => cases h
    | some a =>
      simp only [] at h
      split_ifs at h
      exact absurd h (hcv _)
  · cases arg with
    | none => cases h
    | some a =>
      refine ⟨h5, a, rfl, ?_⟩
      simp only [] at h
      split at h
      · split_ifs at h
        exact absurd h (hcv _)
      · rename_i hne
        intro hlen
        match hs : strings.Split a ',', hlen with
        | [lo, hi], _ => exact hne lo hi hs

/-- The body of the loop returns from inside only on a visible tagged field
with a `minmax` rule whose argument does not split on `,` into two parts. -/
theorem validateField_ret (v : GoAny) (sf : StructField) (errs e : ValidationErrors)
    (h : validateField v sf errs = Step.ret e) :
    sf.IsExported = true ∧ sf.Tag.raw ≠ "" ∧
      ∃ arg more, strings.Split (sf.Tag.Get ValidateTag) Sep = "minmax" :: arg :: more ∧
        (strings.Split arg ',').length ≠ 2 := by
  unfold validateField at h
  split_ifs at h with h1 h2
  · simp only [Bool.and_eq_true, bne_iff_ne, ne_eq] at h2
    refine ⟨h2.1, h2.2, ?_⟩
    split at h
    · cases h
    · rename_i rule hs
      obtain ⟨_, a, ha, _⟩ := validateRule_ret v sf errs e rule none h
      cases ha
    · rename_i rule a more hs
      obtain ⟨hr, a2, ha, hl⟩ := validateRule_ret v sf errs e rule (some a) h
      cases ha
      exact ⟨a, more, by rw [hs, hr], hl⟩

theorem runFields_no_ret (v : GoAny) (fields : List StructField) (errs e : ValidationErrors)
    (h : ∀ sf ∈ fields, ∀ errs1 e1, validateField v sf errs1 ≠ Step.ret e1) :
    runFields v fields errs ≠ Step.ret e := by
  induction fields generalizing errs with
  | nil => simp [runFields]
  | cons sf rest ih =>
    simp only [runFields]
    cases hs : validateField v sf errs with
    | next e2 => exact ih e2 (fun f hf => h f (List.mem_cons_of_mem _ hf))
    | ret e2 => exact absurd hs (h sf (List.mem_cons_self _ _) errs e2)
    | panic => simp

theorem conclude_next_inj (a b : ValidationErrors)
    (h : conclude (Step.next a) = conclude (Step.next b)) : a = b := by
  simp only [conclude] at h
  split_ifs at h with ha hb hb
  · rw [List.length_eq_zero.mp ha, List.length_eq_zero.mp hb]
  · cases h
  · cases h
  · simpa using h

theorem conclude_next_ne_panics (a : ValidationErrors) :
    conclude (Step.next a) ≠ Result.panics := by
  simp only [conclude]
  split_ifs <;> simp

/-! ## The claims -/

/-- C1 (fails on the nil interface): `Validate(nil)` does not return
`ErrNotStruct`; `reflect.TypeOf(nil)` is a nil `Type` and calling `Kind()` on
it panics. -/
theorem C1_Validate_nil_panics :
    Validate none = Result.panics ∧
    Validate none ≠ Result.returns (some (error.sentinel Err.ErrNotStruct)) := by
  decide

/-- C2: a struct in which every field has an empty tag validates successfully,
whatever the names, visibility and values of its fields. -/
theorem C2_untagged_success (x : Iface) (hk : x.typ.kind = Kind.Struct)
    (htag : ∀ f ∈ x.typ.fields, f.Tag.raw = "") :
    Validate (some x) = Result.returns none := by
  have key : ∀ fields : List StructField, (∀ f ∈ fields, f.Tag.raw = "") →
      runFields (some x) fields [] = Step.next [] := by
    intro fields
    induction fields with
    | nil => intro _; rfl
    | cons sf rest ih =>
      intro h
      have h1 : sf.Tag.raw = "" := h sf (List.mem_cons_self _ _)
      have h2 : validateField (some x) sf [] = Step.next [] := by
        simp [validateField, h1]
      simp only [runFields, h2]
      exact ih (fun f hf => h f (List.mem_cons_of_mem _ hf))
  simp [Validate, reflect.TypeOf, hk, reflect.VisibleFields, key _ htag, conclude]

/-- C2, at a struct with an exported integer field, an unexported string field
and an exported bool field, none of them tagged. -/
theorem C2_untagged_success_witness :
    Validate (structOf [(untaggedField "A" "", intValue (-7)),
      (untaggedField "b" "main", stringValue "x"),
      (untaggedField "C" "", boolValue)]) = Result.returns none :=
  C2_untagged_success _ (by decide) (by decide)

/-- C3 (as stated, refuted): an unexported tagged field declared after a
visible field with a one-part `minmax` argument is never reached; the list
returned holds `ErrWrongMinMax` only. -/
theorem C3_counterexample :
    Validate (structOf [(exportedField "A" "minmax:1", intValue 5),
      (unexportedField "b" "min:1", intValue 0)])
      = Result.returns (some (error.list [⟨Err.ErrWrongMinMax⟩])) ∧
    (⟨Err.ErrValidateForUnexportedFields⟩ : ValidationError) ∉
      ([⟨Err.ErrWrongMinMax⟩] : ValidationErrors) := by
  decide

/-- C3 (amended): when the loop gets through the fields declared before an
unexported field with a non-empty tag, collecting the errors `e1`, the call
yields `e1`, then `ErrValidateForUnexportedFields`, then what the fields
declared after it produce; every list the call returns contains that error.
Nothing is assumed of the tag's content: it is not parsed. -/
theorem C3_unexported_field (x : Iface) (pre post : List StructField) (sf : StructField)
    (e1 : ValidationErrors)
    (hk : x.typ.kind = Kind.Struct) (hf : x.typ.fields = pre ++ sf :: post)
    (hpre : runFields (some x) pre [] = Step.next e1)
    (hexp : sf.IsExported = false) (htag : sf.Tag.raw ≠ "") :
    Validate (some x) = conclude (Step.after
      (e1 ++ [⟨Err.ErrValidateForUnexportedFields⟩]) (runFields (some x) post [])) ∧
    ∀ l, Validate (some x) = Result.returns (some (error.list l)) →
      (⟨Err.ErrValidateForUnexportedFields⟩ : ValidationError) ∈ l := by
  have hstep : validateField (some x) sf e1 =
      Step.next (e1 ++ [⟨Err.ErrValidateForUnexportedFields⟩]) := by
    simp [validateField, hexp, htag]
  have hv := Validate_of_next x pre post sf e1 _ hk hf hpre hstep
  refine ⟨hv, ?_⟩
  intro l hl
  rw [hv] at hl
  cases hr : runFields (some x) post [] with
  | next e =>
    rw [hr] at hl
    simp only [Step.after, conclude] at hl
    split_ifs at hl with h0
    · simp at h0
    · simp only [Result.returns.injEq, Option.some.injEq, error.list.injEq] at hl
      rw [← hl]; simp
  | ret e =>
    rw [hr] at hl
    simp only [Step.after, conclude, Result.returns.injEq, Option.some.injEq,
      error.list.injEq] at hl
    rw [← hl]; simp
  | panic =>
    rw [hr] at hl
    simp [Step.after, conclude] at hl

/-- C3 (amended), at a struct whose unexported field `b` carries the tag
`validate:"len"` (on a visible field that annotation makes the call panic),
between two visible fields with violations of their own. -/
theorem C3_unexported_field_witness :
    Validate (structOf [(exportedField "A" "min:5", intValue 0),
      (unexportedField "b" "len", stringValue "x"),
      (exportedField "C" "max:1", intValue 3)])
      = Result.returns (some (error.list [⟨Err.ErrWrongValue⟩,
          ⟨Err.ErrValidateForUnexportedFields⟩, ⟨Err.ErrWrongValue⟩])) ∧
    (⟨Err.ErrValidateForUnexportedFields⟩ : ValidationError) ∈
      ([⟨Err.ErrWrongValue⟩, ⟨Err.ErrValidateForUnexportedFields⟩,
        ⟨Err.ErrWrongValue⟩] : ValidationErrors) :=
  have h := C3_unexported_field
    ⟨⟨Kind.Struct, "main.T", [exportedField "A" "min:5", unexportedField "b" "len",
        exportedField "C" "max:1"]⟩,
      [("A", intValue 0), ("b", stringValue "x"), ("C", intValue 3)]⟩
    [exportedField "A" "min:5"] [exportedField "C" "max:1"] (unexportedField "b" "len")
    [⟨Err.ErrWrongValue⟩] (by decide) (by decide) (by decide) (by decide) (by decide)
  ⟨h.1.trans (by decide), h.2 _ (by decide)⟩

/-- C4 (as stated, refuted): with a violation on a field declared before the
field with the one-part `minmax` argument, the list returned has two errors,
not the single `ErrWrongMinMax`. -/
theorem C4_counterexample :
    Validate (structOf [(exportedField "A" "min:5", intValue 0),
      (exportedField "B" "minmax:1", intValue 5)])
      = Result.returns (some (error.list [⟨Err.ErrWrongValue⟩, ⟨Err.ErrWrongMinMax⟩])) ∧
    Validate (structOf [(exportedField "A" "min:5", intValue 0),
      (exportedField "B" "minmax:1", intValue 5)])
      ≠ Result.returns (some (error.list [⟨Err.ErrWrongMinMax⟩])) := by
  decide

/-- C4 (amended): when the loop gets through the fields declared before a
visible field whose annotation splits on `:` into `minmax`, an argument and
possibly more, and the argument does not split on `,` into exactly two parts,
the call returns the errors `e1` of those earlier fields followed by
`ErrWrongMinMax`, whatever the fields declared after it are. -/
theorem C4_minmax_part_count (x : Iface) (pre post : List StructField) (sf : StructField)
    (e1 : ValidationErrors) (arg : String) (more : List String)
    (hk : x.typ.kind = Kind.Struct) (hf : x.typ.fields = pre ++ sf :: post)
    (hpre : runFields (some x) pre [] = Step.next e1)
    (hexp : sf.IsExported = true) (htag : sf.Tag.raw ≠ "")
    (hsplit : strings.Split (sf.Tag.Get ValidateTag) Sep = "minmax" :: arg :: more)
    (hparts : (strings.Split arg ',').length ≠ 2) :
    Validate (some x) = Result.returns (some (error.list (e1 ++ [⟨Err.ErrWrongMinMax⟩]))) := by
  have hstep : validateField (some x) sf e1 = Step.ret (e1 ++ [⟨Err.ErrWrongMinMax⟩]) := by
    simp only [validateField, hexp, hsplit, validateRule]
    simp only [htag, ne_eq, not_false_eq_true, bne_iff_ne, decide_True, Bool.not_true,
      Bool.false_and, Bool.true_and, if_true, if_false, Bool.false_eq_true]
    simp only [show ("minmax" = "len") = False by decide, show ("minmax" = "in") = False by decide,
      show ("minmax" = "min") = False by decide, show ("minmax" = "max") = False by decide,
      if_false, if_true]
    split
    · rename_i lo hi heq
      rw [heq] at hparts
      simp at hparts
    · rfl
  exact Validate_of_ret x pre post sf e1 _ hk hf hpre hstep

/-- C4 (amended), at a struct whose field `B` is annotated `minmax:1`, after a
field with a violation and before one with a violation. -/
theorem C4_minmax_part_count_witness :
    Validate (structOf [(exportedField "A" "min:5", intValue 0),
      (exportedField "B" "minmax:1", intValue 5),
      (exportedField "C" "max:1", intValue 3)])
      = Result.returns (some (error.list [⟨Err.ErrWrongValue⟩, ⟨Err.ErrWrongMinMax⟩])) :=
  C4_minmax_part_count
    ⟨⟨Kind.Struct, "main.T", [exportedField "A" "min:5", exportedField "B" "minmax:1",
        exportedField "C" "max:1"]⟩,
      [("A", intValue 0), ("B", intValue 5), ("C", intValue 3)]⟩
    [exportedField "A" "min:5"] [exportedField "C" "max:1"] (exportedField "B" "minmax:1")
    [⟨Err.ErrWrongValue⟩] "1" []
    (by decide) (by decide) (by decide) (by decide) (by decide) (by decide) (by decide)

/-- C5 (fails when only the first part is unparseable): on an integer field
annotated `minmax:abc,10` no `ErrWrongMinMax` is recorded; the error of the
first `getInt` is overwritten by the second, the lower bound is taken as `0`
and the value is checked against the range from 0 to 10. -/
theorem C5_first_bound_unparseable :
    (getInt "abc").2 = true ∧
    Validate (structOf [(exportedField "A" "minmax:abc,10", intValue 5)])
      = Result.returns none ∧
    Validate (structOf [(exportedField "A" "minmax:abc,10", intValue 11)])
      = Result.returns (some (error.list [⟨Err.ErrWrongValue⟩])) ∧
    Validate (structOf [(exportedField "A" "minmax:1,abc", intValue 5)])
      = Result.returns (some (error.list [⟨Err.ErrWrongMinMax⟩])) := by
  decide

/-- C6 (as stated, refuted): on an integer field annotated `min:0:max:10` no
syntax error is recorded; the value 5 passes and the value -1 gets
`ErrWrongValue`, as under `min:0`. -/
theorem C6_counterexample :
    Validate (structOf [(exportedField "A" "min:0:max:10", intValue 5)])
      = Result.returns none ∧
    Validate (structOf [(exportedField "A" "min:0:max:10", intValue (-1))])
      = Result.returns (some (error.list [⟨Err.ErrWrongValue⟩])) ∧
    Validate (structOf [(exportedField "A" "min:0:max:10", intValue (-1))])
      = Validate (structOf [(exportedField "A" "min:0", intValue (-1))]) := by
  decide

/-- C6 (amended): a visible field annotated `min:0:max:10` is checked as under
the rule `min:0`, the text after the second `:` being ignored: no syntax error
is recorded; an integer field with a value of at least 0 and every text field
pass, any other field gets exactly one `ErrWrongValue`. -/
theorem C6_two_rule_tag (x : Iface) (pre post : List StructField) (sf : StructField)
    (e1 : ValidationErrors) (f : Value)
    (hk : x.typ.kind = Kind.Struct) (hf : x.typ.fields = pre ++ sf :: post)
    (hpre : runFields (some x) pre [] = Step.next e1)
    (hexp : sf.IsExported = true) (htag : sf.Tag.raw ≠ "")
    (hget : sf.Tag.Get ValidateTag = "min:0:max:10")
    (hval : getField (some x) sf.Name = some f) :
    Validate (some x) = conclude (Step.after
      (if (f.kind = Kind.Int ∧ 0 ≤ f.i) ∨ f.kind = Kind.String then e1
        else e1 ++ [⟨Err.ErrWrongValue⟩])
      (runFields (some x) post [])) := by
  have hsplit : strings.Split "min:0:max:10" Sep = ["min", "0", "max", "10"] := by decide
  have hint : getInt "0" = (0, false) := by decide
  have hlen : (0 : Int) ≤ (len f.s : Int) := Int.ofNat_nonneg _
  have hstep : validateField (some x) sf e1 =
      Step.next (if (f.kind = Kind.Int ∧ 0 ≤ f.i) ∨ f.kind = Kind.String then e1
        else e1 ++ [⟨Err.ErrWrongValue⟩]) := by
    simp only [validateField, hexp, hget, hsplit, validateRule, hint,
      validateTagWithPredicate_of_getField _ _ _ _ hval, checkValue_some]
    simp only [htag, ne_eq, not_false_eq_true, bne_iff_ne, decide_True, Bool.not_true,
      Bool.false_and, Bool.true_and, if_true, if_false, Bool.false_eq_true]
    simp only [show ("min" = "len") = False by decide, show ("min" = "in") = False by decide,
      if_false, if_true]
    congr 1
    by_cases hi : f.kind = Kind.Int
    · simp [minPred, Value.Kind, Value.Int, Value.String, hi]
    · by_cases hs : f.kind = Kind.String
      · simp [minPred, Value.Kind, Value.Int, Value.String, hs, hlen]
      · simp [minPred, Value.Kind, Value.Int, Value.String, hi, hs]
  exact Validate_of_next x pre post sf e1 _ hk hf hpre hstep

/-- C6 (amended), at a struct whose integer field `A`, annotated
`min:0:max:10`, holds 50: the field passes although 50 exceeds 10. -/
theorem C6_two_rule_tag_witness :
    Validate (structOf [(exportedField "A" "min:0:max:10", intValue 50),
      (exportedField "B" "max:1", intValue 3)])
      = Result.returns (some (error.list [⟨Err.ErrWrongValue⟩])) :=
  (C6_two_rule_tag
    ⟨⟨Kind.Struct, "main.T", [exportedField "A" "min:0:max:10", exportedField "B" "max:1"]⟩,
      [("A", intValue 50), ("B", intValue 3)]⟩
    [] [exportedField "B" "max:1"] (exportedField "A" "min:0:max:10") [] (intValue 50)
    (by decide) (by decide) (by decide) (by decide) (by decide) (by decide)
    (by decide)).trans (by decide)

/-- C7 (fails for `len`): on a bool field `Value.String` is the text
`<bool Value>`, 12 bytes long, so the annotation `len:12` passes; `len:5` and
the four other rules do give `ErrWrongValue` on that field. -/
theorem C7_len_on_bool :
    Value.String boolValue = "<bool Value>" ∧
    Validate (structOf [(exportedField "B" "len:12", boolValue)]) = Result.returns none ∧
    Validate (structOf [(exportedField "B" "len:5", boolValue)])
      = Result.returns (some (error.list [⟨Err.ErrWrongValue⟩])) ∧
    Validate (structOf [(exportedField "B" "min:0", boolValue)])
      = Result.returns (some (error.list [⟨Err.ErrWrongValue⟩])) ∧
    Validate (structOf [(exportedField "B" "max:99", boolValue)])
      = Result.returns (some (error.list [⟨Err.ErrWrongValue⟩])) ∧
    Validate (structOf [(exportedField "B" "minmax:0,99", boolValue)])
      = Result.returns (some (error.list [⟨Err.ErrWrongValue⟩])) ∧
    Validate (structOf [(exportedField "B" "in:true,12", boolValue)])
      = Result.returns (some (error.list [⟨Err.ErrWrongValue⟩])) := by
  decide

/-- C8: a visible text field annotated `len:N`, with `N` accepted by
`strconv.Atoi` as the integer `n`, adds nothing to the errors when the byte
length of its value is `n`, and exactly one `ErrWrongValue` otherwise. Here
`e1` are the errors of the fields declared before it, which the loop has got
through, and the outcome of the fields declared after it follows. -/
theorem C8_len_text (x : Iface) (pre post : List StructField) (sf : StructField)
    (e1 : ValidationErrors) (f : Value) (N : String) (n : Int)
    (hk : x.typ.kind = Kind.Struct) (hf : x.typ.fields = pre ++ sf :: post)
    (hpre : runFields (some x) pre [] = Step.next e1)
    (hexp : sf.IsExported = true) (htag : sf.Tag.raw ≠ "")
    (hget : sf.Tag.Get ValidateTag = "len:" ++ N)
    (hN : strconv.Atoi N = some n)
    (hval : getField (some x) sf.Name = some f) (htext : f.kind = Kind.String) :
    Validate (some x) = conclude (Step.after
      (if (len f.s : Int) = n then e1 else e1 ++ [⟨Err.ErrWrongValue⟩])
      (runFields (some x) post [])) := by
  have hsplit : strings.Split ("len:" ++ N) Sep = ["len", N] := by
    have h := Split_rule_arg "len" N (by decide) (Atoi_no_colon N n hN)
    have e : "len" ++ ":" ++ N = "len:" ++ N := by
      rw [String.append_assoc]; rfl
    rw [e] at h
    exact h
  have hstep : validateField (some x) sf e1 =
      Step.next (if (len f.s : Int) = n then e1 else e1 ++ [⟨Err.ErrWrongValue⟩]) := by
    simp only [validateField, hexp, hget, hsplit, validateRule, getInt_of_Atoi N n hN,
      validateTagWithPredicate_of_getField _ _ _ _ hval, checkValue_some]
    simp [htag, lenPred, Value.String, htext]
  exact Validate_of_next x pre post sf e1 _ hk hf hpre hstep

/-- C8, at the example of the specification: `len:5` on "abcde" passes and on
"abcd" gives one `ErrWrongValue`. -/
theorem C8_len_text_witness :
    Validate (structOf [(exportedField "A" "len:5", stringValue "abcde")])
      = Result.returns none ∧
    Validate (structOf [(exportedField "A" "len:5", stringValue "abcd")])
      = Result.returns (some (error.list [⟨Err.ErrWrongValue⟩])) :=
  ⟨(C8_len_text
      ⟨⟨Kind.Struct, "main.T", [exportedField "A" "len:5"]⟩, [("A", stringValue "abcde")]⟩
      [] [] (exportedField "A" "len:5") [] (stringValue "abcde") "5" 5
      (by decide) (by decide) (by decide) (by decide) (by decide) (by decide) (by decide)
      (by decide) (by decide)).trans (by decide),
   (C8_len_text
      ⟨⟨Kind.Struct, "main.T", [exportedField "A" "len:5"]⟩, [("A", stringValue "abcd")]⟩
      [] [] (exportedField "A" "len:5") [] (stringValue "abcd") "5" 5
      (by decide) (by decide) (by decide) (by decide) (by decide) (by decide) (by decide)
      (by decide) (by decide)).trans (by decide)⟩

/-- C9 (as stated, refuted): the list of `in:,1` is not empty and holds the
element "1", yet a text field with the value "1" does not pass: its first
element is empty, so the field gets `ErrWrongIn`. -/
theorem C9_counterexample :
    strings.Split ",1" ',' = ["", "1"] ∧
    Validate (structOf [(exportedField "A" "in:,1", stringValue "1")])
      = Result.returns (some (error.list [⟨Err.ErrWrongIn⟩])) := by
  decide

/-- C9 (amended): for a visible field whose annotation splits on `:` into
`in`, a list `L` and possibly more, where the first comma-separated element of
`L` is not empty: the field adds nothing to the errors when it is an integer
field, every element of `L` parses and one of them parses to its value, or
when it is a text field whose value is an element of `L`; in every other case
it adds exactly one `ErrWrongValue`. -/
theorem C9_in_membership (x : Iface) (pre post : List StructField) (sf : StructField)
    (e1 : ValidationErrors) (f : Value) (L : String) (more : List String)
    (hk : x.typ.kind = Kind.Struct) (hf : x.typ.fields = pre ++ sf :: post)
    (hpre : runFields (some x) pre [] = Step.next e1)
    (hexp : sf.IsExported = true) (htag : sf.Tag.raw ≠ "")
    (hsplit : strings.Split (sf.Tag.Get ValidateTag) Sep = "in" :: L :: more)
    (hfirst : (strings.Split L ',').head? ≠ some "")
    (hval : getField (some x) sf.Name = some f) :
    Validate (some x) = conclude (Step.after
      (if (f.kind = Kind.Int ∧ (∀ t ∈ strings.Split L ',', strconv.Atoi t ≠ none) ∧
            ∃ t ∈ strings.Split L ',', strconv.Atoi t = some f.i) ∨
          (f.kind = Kind.String ∧ f.s ∈ strings.Split L ',')
        then e1 else e1 ++ [⟨Err.ErrWrongValue⟩])
      (runFields (some x) post [])) := by
  have hstep : validateField (some x) sf e1 =
      Step.next (if (f.kind = Kind.Int ∧ (∀ t ∈ strings.Split L ',', strconv.Atoi t ≠ none) ∧
            ∃ t ∈ strings.Split L ',', strconv.Atoi t = some f.i) ∨
          (f.kind = Kind.String ∧ f.s ∈ strings.Split L ',')
        then e1 else e1 ++ [⟨Err.ErrWrongValue⟩]) := by
    simp only [validateField, hexp, hsplit, validateRule]
    simp only [htag, ne_eq, not_false_eq_true, bne_iff_ne, decide_True, Bool.not_true,
      Bool.false_and, Bool.true_and, if_true, if_false, Bool.false_eq_true]
    simp only [show ("in" = "len") = False by decide, if_false, if_true]
    cases hl : strings.Split L ',' with
    | nil => exact absurd hl (Split_ne_nil L ',')
    | cons first rest =>
      have hne : first ≠ "" := by
        intro e
        rw [hl, e] at hfirst
        exact hfirst rfl
      simp only [hne, if_false, validateTagWithPredicate_of_getField _ _ _ _ hval,
        checkValue_some]
      congr 1
      have key := inPred_iff (first :: rest) f
      by_cases hp : inPred (first :: rest) f = true
      · rw [if_pos hp, if_pos (key.mp hp)]
      · rw [if_neg hp, if_neg (fun h => hp (key.mpr h))]
  exact Validate_of_next x pre post sf e1 _ hk hf hpre hstep

/-- C9 (amended), at the example of the specification, `in:1,2,3` on the
integers 2 and 4, and at a list with an unparseable element, `in:2,x`, on the
integer 2 and on the text "x". -/
theorem C9_in_membership_witness :
    Validate (structOf [(exportedField "A" "in:1,2,3", intValue 2)]) = Result.returns none ∧
    Validate (structOf [(exportedField "A" "in:1,2,3", intValue 4)])
      = Result.returns (some (error.list [⟨Err.ErrWrongValue⟩])) ∧
    Validate (structOf [(exportedField "A" "in:2,x", intValue 2)])
      = Result.returns (some (error.list [⟨Err.ErrWrongValue⟩])) ∧
    Validate (structOf [(exportedField "A" "in:2,x", stringValue "x")])
      = Result.returns none :=
  ⟨(C9_in_membership
      ⟨⟨Kind.Struct, "main.T", [exportedField "A" "in:1,2,3"]⟩, [("A", intValue 2)]⟩
      [] [] (exportedField "A" "in:1,2,3") [] (intValue 2) "1,2,3" []
      (by decide) (by decide) (by decide) (by decide) (by decide) (by decide) (by decide)
      (by decide)).trans (by decide),
   (C9_in_membership
      ⟨⟨Kind.Struct, "main.T", [exportedField "A" "in:1,2,3"]⟩, [("A", intValue 4)]⟩
      [] [] (exportedField "A" "in:1,2,3") [] (intValue 4) "1,2,3" []
      (by decide) (by decide) (by decide) (by decide) (by decide) (by decide) (by decide)
      (by decide)).trans (by decide),
   (C9_in_membership
      ⟨⟨Kind.Struct, "main.T", [exportedField "A" "in:2,x"]⟩, [("A", intValue 2)]⟩
      [] [] (exportedField "A" "in:2,x") [] (intValue 2) "2,x" []
      (by decide) (by decide) (by decide) (by decide) (by decide) (by decide) (by decide)
      (by decide)).trans (by decide),
   (C9_in_membership
      ⟨⟨Kind.Struct, "main.T", [exportedField "A" "in:2,x"]⟩, [("A", stringValue "x")]⟩
      [] [] (exportedField "A" "in:2,x") [] (stringValue "x") "2,x" []
      (by decide) (by decide) (by decide) (by decide) (by decide) (by decide) (by decide)
      (by decide)).trans (by decide)⟩

/-- C10: a visible field annotated `in:` (empty argument) adds exactly
`ErrWrongIn` to the errors, whatever its value and kind, and the fields
declared after it are validated, their outcome coming after that error. Here
`e1` are the errors of the fields declared before it, which the loop has got
through. -/
theorem C10_in_empty (x : Iface) (pre post : List StructField) (sf : StructField)
    (e1 : ValidationErrors)
    (hk : x.typ.kind = Kind.Struct) (hf : x.typ.fields = pre ++ sf :: post)
    (hpre : runFields (some x) pre [] = Step.next e1)
    (hexp : sf.IsExported = true) (htag : sf.Tag.raw ≠ "")
    (hget : sf.Tag.Get ValidateTag = "in:") :
    Validate (some x) = conclude (Step.after (e1 ++ [⟨Err.ErrWrongIn⟩])
      (runFields (some x) post [])) := by
  have hsplit : strings.Split "in:" Sep = ["in", ""] := by decide
  have hlist : strings.Split "" ',' = [""] := by decide
  have hstep : validateField (some x) sf e1 = Step.next (e1 ++ [⟨Err.ErrWrongIn⟩]) := by
    simp only [validateField, hexp, hget, hsplit, validateRule, hlist]
    simp only [htag, ne_eq, not_false_eq_true, bne_iff_ne, decide_True, Bool.not_true,
      Bool.false_and, Bool.true_and, if_true, if_false, Bool.false_eq_true]
    simp only [show ("in" = "len") = False by decide, if_false, if_true]
  exact Validate_of_next x pre post sf e1 _ hk hf hpre hstep

/-- C10, at a struct whose bool field `B` is annotated `in:`, before a field
with a violation of its own. -/
theorem C10_in_empty_witness :
    Validate (structOf [(exportedField "B" "in:", boolValue),
      (exportedField "C" "max:1", intValue 3)])
      = Result.returns (some (error.list [⟨Err.ErrWrongIn⟩, ⟨Err.ErrWrongValue⟩])) :=
  (C10_in_empty
    ⟨⟨Kind.Struct, "main.T", [exportedField "B" "in:", exportedField "C" "max:1"]⟩,
      [("B", boolValue), ("C", intValue 3)]⟩
    [] [exportedField "C" "max:1"] (exportedField "B" "in:") []
    (by decide) (by decide) (by decide) (by decide) (by decide) (by decide)).trans (by decide)

/-- C11: a visible field annotated `min:N` (respectively `max:N`), with `N`
accepted by `strconv.Atoi` as the integer `n`, adds nothing to the errors when
it is an integer field with a value of at least `n` (at most `n`) or a text
field with a byte length of at least `n` (at most `n`), and exactly one
`ErrWrongValue` otherwise. Here `e1` are the errors of the fields declared
before it, which the loop has got through, and the outcome of the fields
declared after it follows. -/
theorem C11_min_max (x : Iface) (pre post : List StructField) (sf : StructField)
    (e1 : ValidationErrors) (f : Value) (N : String) (n : Int)
    (hk : x.typ.kind = Kind.Struct) (hf : x.typ.fields = pre ++ sf :: post)
    (hpre : runFields (some x) pre [] = Step.next e1)
    (hexp : sf.IsExported = true) (htag : sf.Tag.raw ≠ "")
    (hN : strconv.Atoi N = some n)
    (hval : getField (some x) sf.Name = some f) :
    (sf.Tag.Get ValidateTag = "min:" ++ N →
      Validate (some x) = conclude (Step.after
        (if (f.kind = Kind.Int ∧ n ≤ f.i) ∨ (f.kind = Kind.String ∧ n ≤ (len f.s : Int))
          then e1 else e1 ++ [⟨Err.ErrWrongValue⟩])
        (runFields (some x) post []))) ∧
    (sf.Tag.Get ValidateTag = "max:" ++ N →
      Validate (some x) = conclude (Step.after
        (if (f.kind = Kind.Int ∧ f.i ≤ n) ∨ (f.kind = Kind.String ∧ (len f.s : Int) ≤ n)
          then e1 else e1 ++ [⟨Err.ErrWrongValue⟩])
        (runFields (some x) post []))) := by
  have hcolon := Atoi_no_colon N n hN
  have hg := getInt_of_Atoi N n hN
  constructor
  · intro hget
    have hsplit : strings.Split (sf.Tag.Get ValidateTag) Sep = ["min", N] := by
      rw [hget]
      have h := Split_rule_arg "min" N (by decide) hcolon
      have e : "min" ++ ":" ++ N = "min:" ++ N := by rw [String.append_assoc]; rfl
      rw [e] at h
      exact h
    have hstep := validateField_exported (some x) sf e1 "min" N [] hexp htag hsplit
    rw [validateRule_min, hg] at hstep
    simp only [Bool.false_eq_true, if_false] at hstep
    rw [checkValue_pred _ _ _ f e1 _ hval (minPred_iff n f)] at hstep
    exact Validate_of_next x pre post sf e1 _ hk hf hpre hstep
  · intro hget
    have hsplit : strings.Split (sf.Tag.Get ValidateTag) Sep = ["max", N] := by
      rw [hget]
      have h := Split_rule_arg "max" N (by decide) hcolon
      have e : "max" ++ ":" ++ N = "max:" ++ N := by rw [String.append_assoc]; rfl
      rw [e] at h
      exact h
    have hstep := validateField_exported (some x) sf e1 "max" N [] hexp htag hsplit
    rw [validateRule_max, hg] at hstep
    simp only [Bool.false_eq_true, if_false] at hstep
    rw [checkValue_pred _ _ _ f e1 _ hval (maxPred_iff n f)] at hstep
    exact Validate_of_next x pre post sf e1 _ hk hf hpre hstep

/-- C11, at `min:3` on the integer 3 (passes) and on the text "ab" (one
`ErrWrongValue`), and at `max:3` on the integer 4 (one `ErrWrongValue`) and on
the text "abc" (passes). -/
theorem C11_min_max_witness :
    Validate (structOf [(exportedField "A" "min:3", intValue 3)]) = Result.returns none ∧
    Validate (structOf [(exportedField "A" "min:3", stringValue "ab")])
      = Result.returns (some (error.list [⟨Err.ErrWrongValue⟩])) ∧
    Validate (structOf [(exportedField "A" "max:3", intValue 4)])
      = Result.returns (some (error.list [⟨Err.ErrWrongValue⟩])) ∧
    Validate (structOf [(exportedField "A" "max:3", stringValue "abc")])
      = Result.returns none :=
  ⟨((C11_min_max
      ⟨⟨Kind.Struct, "main.T", [exportedField "A" "min:3"]⟩, [("A", intValue 3)]⟩
      [] [] (exportedField "A" "min:3") [] (intValue 3) "3" 3
      (by decide) (by decide) (by decide) (by decide) (by decide) (by decide)
      (by decide)).1 (by decide)).trans (by decide),
   ((C11_min_max
      ⟨⟨Kind.Struct, "main.T", [exportedField "A" "min:3"]⟩, [("A", stringValue "ab")]⟩
      [] [] (exportedField "A" "min:3") [] (stringValue "ab") "3" 3
      (by decide) (by decide) (by decide) (by decide) (by decide) (by decide)
      (by decide)).1 (by decide)).trans (by decide),
   ((C11_min_max
      ⟨⟨Kind.Struct, "main.T", [exportedField "A" "max:3"]⟩, [("A", intValue 4)]⟩
      [] [] (exportedField "A" "max:3") [] (intValue 4) "3" 3
      (by decide) (by decide) (by decide) (by decide) (by decide) (by decide)
      (by decide)).2 (by decide)).trans (by decide),
   ((C11_min_max
      ⟨⟨Kind.Struct, "main.T", [exportedField "A" "max:3"]⟩, [("A", stringValue "abc")]⟩
      [] [] (exportedField "A" "max:3") [] (stringValue "abc") "3" 3
      (by decide) (by decide) (by decide) (by decide) (by decide) (by decide)
      (by decide)).2 (by decide)).trans (by decide)⟩

/-- C12: a visible field annotated `minmax:lo,hi`, with `lo` and `hi` accepted
by `strconv.Atoi` as the integers `a` and `b`, adds nothing to the errors when
it is an integer field with a value from `a` to `b` or a text field with a
byte length from `a` to `b`, and exactly one `ErrWrongValue` otherwise. Here
`e1` are the errors of the fields declared before it, which the loop has got
through, and the outcome of the fields declared after it follows. -/
theorem C12_minmax_range (x : Iface) (pre post : List StructField) (sf : StructField)
    (e1 : ValidationErrors) (f : Value) (lo hi : String) (a b : Int)
    (hk : x.typ.kind = Kind.Struct) (hf : x.typ.fields = pre ++ sf :: post)
    (hpre : runFields (some x) pre [] = Step.next e1)
    (hexp : sf.IsExported = true) (htag : sf.Tag.raw ≠ "")
    (hget : sf.Tag.Get ValidateTag = "minmax:" ++ lo ++ "," ++ hi)
    (hlo : strconv.Atoi lo = some a) (hhi : strconv.Atoi hi = some b)
    (hval : getField (some x) sf.Name = some f) :
    Validate (some x) = conclude (Step.after
      (if (f.kind = Kind.Int ∧ a ≤ f.i ∧ f.i ≤ b) ∨
          (f.kind = Kind.String ∧ a ≤ (len f.s : Int) ∧ (len f.s : Int) ≤ b)
        then e1 else e1 ++ [⟨Err.ErrWrongValue⟩])
      (runFields (some x) post [])) := by
  have hdata : ("minmax:" ++ lo ++ "," ++ hi).data =
      "minmax".data ++ ':' :: (lo.data ++ ',' :: hi.data) := by
    simp [String.data_append]
  have hrest : ':' ∉ lo.data ++ ',' :: hi.data := by
    intro hm
    rcases List.mem_append.mp hm with h | h
    · exact Atoi_no_colon lo a hlo h
    · rcases List.mem_cons.mp h with e | e
      · revert e; decide
      · exact Atoi_no_colon hi b hhi e
  have harg : strings.Split (String.mk (lo.data ++ ',' :: hi.data)) ',' = [lo, hi] := by
    rw [Split_of_data _ ',' lo.data hi.data rfl (Atoi_no_comma lo a hlo),
      Split_of_not_mem _ ',' (Atoi_no_comma hi b hhi)]
  have hsplit : strings.Split (sf.Tag.Get ValidateTag) Sep =
      ["minmax", String.mk (lo.data ++ ',' :: hi.data)] := by
    rw [hget, Sep, Split_of_data _ ':' _ _ hdata (by decide), Split_of_not_mem _ ':' hrest]
  have hstep := validateField_exported (some x) sf e1 "minmax" _ [] hexp htag hsplit
  rw [validateRule_minmax_two _ _ _ _ lo hi harg, getInt_of_Atoi lo a hlo,
    getInt_of_Atoi hi b hhi] at hstep
  simp only [Bool.false_eq_true, if_false] at hstep
  rw [checkValue_pred _ _ _ f e1 _ hval (minmaxPred_iff a b f)] at hstep
  exact Validate_of_next x pre post sf e1 _ hk hf hpre hstep

/-- C12, at the example of the specification: `minmax:1,10` passes on 5 and
gives one `ErrWrongValue` on 11. -/
theorem C12_minmax_range_witness :
    Validate (structOf [(exportedField "A" "minmax:1,10", intValue 5)])
      = Result.returns none ∧
    Validate (structOf [(exportedField "A" "minmax:1,10", intValue 11)])
      = Result.returns (some (error.list [⟨Err.ErrWrongValue⟩])) :=
  ⟨(C12_minmax_range
      ⟨⟨Kind.Struct, "main.T", [exportedField "A" "minmax:1,10"]⟩, [("A", intValue 5)]⟩
      [] [] (exportedField "A" "minmax:1,10") [] (intValue 5) "1" "10" 1 10
      (by decide) (by decide) (by decide) (by decide) (by decide) (by decide) (by decide)
      (by decide) (by decide)).trans (by decide),
   (C12_minmax_range
      ⟨⟨Kind.Struct, "main.T", [exportedField "A" "minmax:1,10"]⟩, [("A", intValue 11)]⟩
      [] [] (exportedField "A" "minmax:1,10") [] (intValue 11) "1" "10" 1 10
      (by decide) (by decide) (by decide) (by decide) (by decide) (by decide) (by decide)
      (by decide) (by decide)).trans (by decide)⟩

/-- C13 (as stated, refuted): in `max:10:abc` the text after `max:` is
`10:abc`, which `strconv.Atoi` rejects, yet no `ErrWrongMax` is recorded: the
code reads `10` only, so the integer 5 passes and the integer 11 gets
`ErrWrongValue`. Likewise `len:5:x` passes on a text of 5 bytes. -/
theorem C13_counterexample :
    strconv.Atoi "10:abc" = none ∧
    strings.Split "max:10:abc" Sep = ["max", "10", "abc"] ∧
    Validate (structOf [(exportedField "A" "max:10:abc", intValue 5)])
      = Result.returns none ∧
    Validate (structOf [(exportedField "A" "max:10:abc", intValue 11)])
      = Result.returns (some (error.list [⟨Err.ErrWrongValue⟩])) ∧
    strconv.Atoi "5:x" = none ∧
    Validate (structOf [(exportedField "A" "len:5:x", stringValue "abcde")])
      = Result.returns none := by
  decide

/-- C13 (amended): a visible field whose annotation splits on `:` into the
rule `len`, `min` or `max`, an argument `X` (the text up to the next `:`, if
any) and possibly more, where `strconv.Atoi` rejects `X`, adds exactly one
syntax error (`ErrInvalidValidatorSyntax` for
`len`, `ErrWrongMin` for `min`, `ErrWrongMax` for `max`) and no
`ErrWrongValue`, whatever its kind and value, and the fields declared after
it are validated, their outcome coming after that error. Here `e1` are the
errors of the fields declared before it, which the loop has got through. -/
theorem C13_unparseable_argument (x : Iface) (pre post : List StructField) (sf : StructField)
    (e1 : ValidationErrors) (rule X : String) (more : List String)
    (hk : x.typ.kind = Kind.Struct) (hf : x.typ.fields = pre ++ sf :: post)
    (hpre : runFields (some x) pre [] = Step.next e1)
    (hexp : sf.IsExported = true) (htag : sf.Tag.raw ≠ "")
    (hsplit : strings.Split (sf.Tag.Get ValidateTag) Sep = rule :: X :: more)
    (hX : strconv.Atoi X = none) :
    (rule = "len" → Validate (some x) = conclude (Step.after
      (e1 ++ [⟨Err.ErrInvalidValidatorSyntax⟩]) (runFields (some x) post []))) ∧
    (rule = "min" → Validate (some x) = conclude (Step.after
      (e1 ++ [⟨Err.ErrWrongMin⟩]) (runFields (some x) post []))) ∧
    (rule = "max" → Validate (some x) = conclude (Step.after
      (e1 ++ [⟨Err.ErrWrongMax⟩]) (runFields (some x) post []))) := by
  have herr : (getInt X).2 = true := (getInt_err_iff X).mpr hX
  have hstep := validateField_exported (some x) sf e1 rule X more hexp htag hsplit
  refine ⟨?_, ?_, ?_⟩
  · intro hr
    rw [hr, validateRule_len, if_pos herr] at hstep
    exact Validate_of_next x pre post sf e1 _ hk hf hpre hstep
  · intro hr
    rw [hr, validateRule_min, if_pos herr] at hstep
    exact Validate_of_next x pre post sf e1 _ hk hf hpre hstep
  · intro hr
    rw [hr, validateRule_max, if_pos herr] at hstep
    exact Validate_of_next x pre post sf e1 _ hk hf hpre hstep

/-- C13 (amended), at the example of the specification, `max:abc`, on a bool field
before a field with a violation of its own, and at `len:x` and `min:` on text
and integer fields. -/
theorem C13_unparseable_argument_witness :
    Validate (structOf [(exportedField "A" "max:abc", boolValue),
      (exportedField "B" "min:5", intValue 0)])
      = Result.returns (some (error.list [⟨Err.ErrWrongMax⟩, ⟨Err.ErrWrongValue⟩])) ∧
    Validate (structOf [(exportedField "A" "len:x", stringValue "x")])
      = Result.returns (some (error.list [⟨Err.ErrInvalidValidatorSyntax⟩])) ∧
    Validate (structOf [(exportedField "A" "min:", intValue 7)])
      = Result.returns (some (error.list [⟨Err.ErrWrongMin⟩])) :=
  ⟨((C13_unparseable_argument
      ⟨⟨Kind.Struct, "main.T", [exportedField "A" "max:abc", exportedField "B" "min:5"]⟩,
        [("A", boolValue), ("B", intValue 0)]⟩
      [] [exportedField "B" "min:5"] (exportedField "A" "max:abc") [] "max" "abc" []
      (by decide) (by decide) (by decide) (by decide) (by decide) (by decide)
      (by decide)).2.2 (by decide)).trans (by decide),
   ((C13_unparseable_argument
      ⟨⟨Kind.Struct, "main.T", [exportedField "A" "len:x"]⟩, [("A", stringValue "x")]⟩
      [] [] (exportedField "A" "len:x") [] "len" "x" []
      (by decide) (by decide) (by decide) (by decide) (by decide) (by decide)
      (by decide)).1 (by decide)).trans (by decide),
   ((C13_unparseable_argument
      ⟨⟨Kind.Struct, "main.T", [exportedField "A" "min:"]⟩, [("A", intValue 7)]⟩
      [] [] (exportedField "A" "min:") [] "min" "" []
      (by decide) (by decide) (by decide) (by decide) (by decide) (by decide)
      (by decide)).2.1 (by decide)).trans (by decide)⟩

/-- C14: `Error()` of a `ValidationErrors` list is the messages of its
elements, in list order, with `, ` between neighbours: the empty string for
the empty list, the element's message for a one-element list, and the first
message, the delimiter and the rendering of the rest for a longer list. -/
theorem C14_Error_joins_messages :
    (∀ v : ValidationErrors,
      ValidationErrors.Error v = String.intercalate ", " (v.map (fun m => m.Err.Error))) ∧
    (∀ m : ValidationError, ValidationErrors.Error [m] = m.Err.Error) ∧
    (∀ (m n : ValidationError) (rest : ValidationErrors),
      ValidationErrors.Error (m :: n :: rest) =
        m.Err.Error ++ ", " ++ ValidationErrors.Error (n :: rest)) ∧
    ValidationErrors.Error [⟨Err.ErrWrongMax⟩, ⟨Err.ErrWrongValue⟩, ⟨Err.ErrWrongIn⟩]
      = "max tag is incorrect, Variable value not validated, 'in' is empty" := by
  refine ⟨?_, ?_, ?_, ?_⟩
  · intro v
    cases v with
    | nil => rfl
    | cons m rest =>
      simp only [ValidationErrors.Error, List.map_cons, String.intercalate]
      rw [intercalate_go_eq_Join]
  · intro m; rfl
  · intro m n rest; rfl
  · decide

/-- C15: when a visible field has a `minmax` annotation whose argument does
not split on `,` into exactly two parts, two struct records that have the same
fields up to and including that field, with the same values in the fields
before it, get the same result, whatever fields and values follow. -/
theorem C15_later_fields_ignored (x y : Iface) (pre post1 post2 : List StructField)
    (sf : StructField) (arg : String) (more : List String)
    (hkx : x.typ.kind = Kind.Struct) (hky : y.typ.kind = Kind.Struct)
    (hfx : x.typ.fields = pre ++ sf :: post1) (hfy : y.typ.fields = pre ++ sf :: post2)
    (hagree : ∀ f ∈ pre, getField (some x) f.Name = getField (some y) f.Name)
    (hexp : sf.IsExported = true) (htag : sf.Tag.raw ≠ "")
    (hsplit : strings.Split (sf.Tag.Get ValidateTag) Sep = "minmax" :: arg :: more)
    (hparts : (strings.Split arg ',').length ≠ 2) :
    Validate (some x) = Validate (some y) := by
  have hstep : ∀ (v : GoAny) (errs : ValidationErrors),
      validateField v sf errs = Step.ret (errs ++ [⟨Err.ErrWrongMinMax⟩]) := by
    intro v errs
    rw [validateField_exported v sf errs "minmax" arg more hexp htag hsplit]
    simp only [validateRule, show ("minmax" = "len") = False by decide,
      show ("minmax" = "in") = False by decide, show ("minmax" = "min") = False by decide,
      show ("minmax" = "max") = False by decide, if_false, if_true]
    split
    · rename_i lo hi heq
      rw [heq] at hparts
      simp at hparts
    · rfl
  rw [Validate_struct x hkx, Validate_struct y hky, hfx, hfy, runFields_append_eq,
    runFields_append_eq, runFields_congr (some x) (some y) pre [] hagree]
  cases runFields (some y) pre [] with
  | next e => simp only [runFields, hstep]
  | ret e => rfl
  | panic => rfl

/-- C15, at two structs that share the fields `A` (with a violation) and `B`
(annotated `minmax:1`) and differ in what follows: a field with a violation in
one, a field whose annotation alone would make the call panic in the other. -/
theorem C15_later_fields_ignored_witness :
    Validate (structOf [(exportedField "A" "min:5", intValue 0),
      (exportedField "B" "minmax:1", intValue 5),
      (exportedField "C" "max:1", intValue 3)])
    = Validate (structOf [(exportedField "A" "min:5", intValue 0),
      (exportedField "B" "minmax:1", intValue 7),
      (exportedField "D" "len", stringValue "x"),
      (unexportedField "e" "in:", boolValue)]) :=
  C15_later_fields_ignored
    ⟨⟨Kind.Struct, "main.T", [exportedField "A" "min:5", exportedField "B" "minmax:1",
        exportedField "C" "max:1"]⟩,
      [("A", intValue 0), ("B", intValue 5), ("C", intValue 3)]⟩
    ⟨⟨Kind.Struct, "main.T", [exportedField "A" "min:5", exportedField "B" "minmax:1",
        exportedField "D" "len", unexportedField "e" "in:"]⟩,
      [("A", intValue 0), ("B", intValue 7), ("D", stringValue "x"), ("e", boolValue)]⟩
    [exportedField "A" "min:5"] [exportedField "C" "max:1"]
    [exportedField "D" "len", unexportedField "e" "in:"]
    (exportedField "B" "minmax:1") "1" []
    (by decide) (by decide) (by decide) (by decide) (by decide) (by decide) (by decide)
    (by decide) (by decide)

/-- C16 (fails): each of the five rule names without a `:` makes the call
panic; reading `tagValue[1]` of a one-element slice is an index out of range,
so no error list is returned. -/
theorem C16_rule_without_separator_panics :
    strings.Split "len" Sep = ["len"] ∧
    Validate (structOf [(exportedField "A" "len", stringValue "abc")]) = Result.panics ∧
    Validate (structOf [(exportedField "A" "in", intValue 1)]) = Result.panics ∧
    Validate (structOf [(exportedField "A" "min", intValue 1)]) = Result.panics ∧
    Validate (structOf [(exportedField "A" "max", intValue 1)]) = Result.panics ∧
    Validate (structOf [(exportedField "A" "minmax", intValue 1)]) = Result.panics := by
  decide

/-- C17: a `ValidationErrors` list that `Validate` returns is never empty,
and it is at most as long as the number of fields of the record that have a
non-empty tag. -/
theorem C17_list_nonempty_and_bounded (x : Iface) (l : ValidationErrors)
    (h : Validate (some x) = Result.returns (some (error.list l))) :
    l ≠ [] ∧ l.length ≤ (x.typ.fields.filter (fun f => f.Tag.raw != "")).length := by
  by_cases hk : x.typ.kind = Kind.Struct
  · rw [Validate_struct x hk] at h
    have hlen := runFields_length (some x) x.typ.fields []
    cases hr : runFields (some x) x.typ.fields [] with
    | next e =>
      rw [hr] at h
      simp only [conclude] at h
      split_ifs at h with h0
      · cases h
      · simp only [Result.returns.injEq, Option.some.injEq, error.list.injEq] at h
        rw [← h]
        refine ⟨?_, ?_⟩
        · intro hnil
          exact h0 (by rw [hnil]; rfl)
        · have := hlen.1 e hr
          simpa using this
    | ret e =>
      rw [hr] at h
      simp only [conclude, Result.returns.injEq, Option.some.injEq, error.list.injEq] at h
      rw [← h]
      have := hlen.2 e hr
      exact ⟨this.1, by simpa using this.2⟩
    | panic =>
      rw [hr] at h
      simp [conclude] at h
  · rw [Validate_not_struct x hk] at h
    simp at h

/-- C17, at a struct with three tagged fields and an untagged one: the early
return at `B` gives a list of two errors. -/
theorem C17_list_nonempty_and_bounded_witness :
    ([⟨Err.ErrWrongValue⟩, ⟨Err.ErrWrongMinMax⟩] : ValidationErrors) ≠ [] ∧
    ([⟨Err.ErrWrongValue⟩, ⟨Err.ErrWrongMinMax⟩] : ValidationErrors).length ≤
      ([exportedField "A" "min:5", untaggedField "U" "", exportedField "B" "minmax:1",
        exportedField "C" "max:1"].filter (fun f => f.Tag.raw != "")).length :=
  C17_list_nonempty_and_bounded
    ⟨⟨Kind.Struct, "main.T", [exportedField "A" "min:5", untaggedField "U" "",
        exportedField "B" "minmax:1", exportedField "C" "max:1"]⟩,
      [("A", intValue 0), ("U", intValue 9), ("B", intValue 5), ("C", intValue 3)]⟩
    [⟨Err.ErrWrongValue⟩, ⟨Err.ErrWrongMinMax⟩] (by decide)

/-- C18: take a struct record `x` in which no visible field has a `minmax`
annotation whose argument does not split on `,` into exactly two parts, and
records `xa`, `xb` that hold the first and the remaining fields of `x` with
the same values. When validating `xa` gives the errors `ea` and validating
`xb` gives `eb`, validating `x` gives `ea` followed by `eb`; the call on `x`
panics exactly when one of the two others does. Every field adds no error or
one, and the outcome of a field is the same in every record that gives the
field the same value, whatever errors were collected before. -/
theorem C18_errors_concatenate (x xa xb : Iface)
    (hk : x.typ.kind = Kind.Struct) (hka : xa.typ.kind = Kind.Struct)
    (hkb : xb.typ.kind = Kind.Struct)
    (hf : x.typ.fields = xa.typ.fields ++ xb.typ.fields)
    (hva : ∀ f ∈ xa.typ.fields, getField (some xa) f.Name = getField (some x) f.Name)
    (hvb : ∀ f ∈ xb.typ.fields, getField (some xb) f.Name = getField (some x) f.Name)
    (hparts : ∀ sf ∈ x.typ.fields, ∀ arg more, sf.IsExported = true → sf.Tag.raw ≠ "" →
      strings.Split (sf.Tag.Get ValidateTag) Sep = "minmax" :: arg :: more →
      (strings.Split arg ',').length = 2) :
    (∀ ea eb, Validate (some xa) = conclude (Step.next ea) →
      Validate (some xb) = conclude (Step.next eb) →
      Validate (some x) = conclude (Step.next (ea ++ eb))) ∧
    (Validate (some x) = Result.panics ↔
      (Validate (some xa) = Result.panics ∨ Validate (some xb) = Result.panics)) ∧
    (∀ sf ∈ x.typ.fields, ∀ errs, validateField (some x) sf errs = Step.panic ∨
      ∃ e, e.length ≤ 1 ∧ validateField (some x) sf errs = Step.next (errs ++ e)) ∧
    (∀ (sf : StructField) (y : Iface) (errs : ValidationErrors),
      getField (some y) sf.Name = getField (some x) sf.Name →
      validateField (some y) sf errs = Step.after errs (validateField (some x) sf [])) := by
  have hnoret : ∀ sf ∈ x.typ.fields, ∀ errs1 e1,
      validateField (some x) sf errs1 ≠ Step.ret e1 := by
    intro sf hm errs1 e1 h
    obtain ⟨h1, h2, arg, more, h3, h4⟩ := validateField_ret (some x) sf errs1 e1 h
    exact h4 (hparts sf hm arg more h1 h2 h3)
  have hA : runFields (some xa) xa.typ.fields [] = runFields (some x) xa.typ.fields [] :=
    runFields_congr _ _ _ _ hva
  have hB : runFields (some xb) xb.typ.fields [] = runFields (some x) xb.typ.fields [] :=
    runFields_congr _ _ _ _ hvb
  have hnA : ∀ e, runFields (some x) xa.typ.fields [] ≠ Step.ret e := fun e =>
    runFields_no_ret _ _ _ _ (fun sf hm => hnoret sf (by rw [hf]; exact List.mem_append_left _ hm))
  have hnB : ∀ errs e, runFields (some x) xb.typ.fields errs ≠ Step.ret e := fun errs e =>
    runFields_no_ret _ _ _ _ (fun sf hm => hnoret sf (by rw [hf]; exact List.mem_append_right _ hm))
  have hx : Validate (some x) = conclude
      (match runFields (some x) xa.typ.fields [] with
        | Step.next e => runFields (some x) xb.typ.fields e
        | Step.ret e => Step.ret e
        | Step.panic => Step.panic) := by
    rw [Validate_struct x hk, hf, runFields_append_eq]
  rw [Validate_struct xa hka, Validate_struct xb hkb, hA, hB, hx]
  refine ⟨?_, ?_, ?_, ?_⟩
  · intro ea eb h1 h2
    cases hra : runFields (some x) xa.typ.fields [] with
    | next a =>
      rw [hra] at h1
      have e1 := conclude_next_inj _ _ h1
      cases hrb : runFields (some x) xb.typ.fields [] with
      | next b =>
        rw [hrb] at h2
        have e2 := conclude_next_inj _ _ h2
        simp only []
        rw [runFields_after, hrb, e1, e2]
        rfl
      | ret b => exact absurd hrb (hnB _ _)
      | panic =>
        rw [hrb] at h2
        exact absurd h2.symm (conclude_next_ne_panics _)
    | ret a => exact absurd hra (hnA _)
    | panic =>
      rw [hra] at h1
      exact absurd h1.symm (conclude_next_ne_panics _)
  · cases hra : runFields (some x) xa.typ.fields [] with
    | next a =>
      simp only []
      rw [runFields_after (some x) xb.typ.fields a]
      cases hrb : runFields (some x) xb.typ.fields [] with
      | next b =>
        simp only [Step.after]
        constructor
        · intro h; exact absurd h (conclude_next_ne_panics _)
        · rintro (h | h) <;> exact absurd h (conclude_next_ne_panics _)
      | ret b => exact absurd hrb (hnB _ _)
      | panic =>
        simp only [Step.after, conclude, true_iff, or_true]
    | ret a => exact absurd hra (hnA _)
    | panic => simp only [conclude, true_or]
  · intro sf hm errs
    rcases validateField_shape (some x) sf errs with h | h | ⟨_, e, h | h⟩
    · exact Or.inl h
    · exact Or.inr ⟨[], by simp, by simpa using h⟩
    · exact Or.inr ⟨[e], by simp, h⟩
    · exact absurd h (hnoret sf hm _ _)
  · intro sf y errs hv
    rw [validateField_congr (some y) (some x) sf errs hv, validateField_after]

/-- C18, at a struct of four fields cut after the second one: the errors of
the first two fields, then the errors of the last two. -/
theorem C18_errors_concatenate_witness :
    Validate (structOf [(exportedField "A" "min:5", intValue 0),
      (unexportedField "b" "len", stringValue "x"),
      (exportedField "C" "in:", boolValue),
      (exportedField "D" "minmax:1,9", intValue 3)])
      = Result.returns (some (error.list [⟨Err.ErrWrongValue⟩,
          ⟨Err.ErrValidateForUnexportedFields⟩, ⟨Err.ErrWrongIn⟩])) :=
  ((C18_errors_concatenate
    ⟨⟨Kind.Struct, "main.T", [exportedField "A" "min:5", unexportedField "b" "len",
        exportedField "C" "in:", exportedField "D" "minmax:1,9"]⟩,
      [("A", intValue 0), ("b", stringValue "x"), ("C", boolValue), ("D", intValue 3)]⟩
    ⟨⟨Kind.Struct, "main.T", [exportedField "A" "min:5", unexportedField "b" "len"]⟩,
      [("A", intValue 0), ("b", stringValue "x")]⟩
    ⟨⟨Kind.Struct, "main.T", [exportedField "C" "in:", exportedField "D" "minmax:1,9"]⟩,
      [("C", boolValue), ("D", intValue 3)]⟩
    (by decide) (by decide) (by decide) (by decide) (by decide) (by decide)
    (by
      intro sf hm arg more hexp _ hs
      simp only [List.mem_cons, List.mem_singleton, List.not_mem_nil, or_false] at hm
      rcases hm with rfl | rfl | rfl | rfl
      · rw [show strings.Split ((exportedField "A" "min:5").Tag.Get ValidateTag) Sep
          = ["min", "5"] by decide] at hs
        simp at hs
      · exact absurd hexp (by decide)
      · rw [show strings.Split ((exportedField "C" "in:").Tag.Get ValidateTag) Sep
          = ["in", ""] by decide] at hs
        simp at hs
      · rw [show strings.Split ((exportedField "D" "minmax:1,9").Tag.Get ValidateTag) Sep
          = ["minmax", "1,9"] by decide] at hs
        simp only [List.cons.injEq, true_and] at hs
        rw [← hs.1]
        decide)).1
    [⟨Err.ErrWrongValue⟩, ⟨Err.ErrValidateForUnexportedFields⟩] [⟨Err.ErrWrongIn⟩]
    (by decide) (by decide)).trans (by decide)

/-- C19: a visible field whose annotation, cut at its first `:`, names none
of the rules `len`, `in`, `min`, `max`, `minmax` adds nothing to the errors,
whatever its value; the same holds when the tag has no `validate` key. Here
`e1` are the errors of the fields declared before it, which the loop has got
through, and the outcome of the fields declared after it follows. -/
theorem C19_unknown_rule (x : Iface) (pre post : List StructField) (sf : StructField)
    (e1 : ValidationErrors)
    (hk : x.typ.kind = Kind.Struct) (hf : x.typ.fields = pre ++ sf :: post)
    (hpre : runFields (some x) pre [] = Step.next e1)
    (hexp : sf.IsExported = true)
    (hrule : ∀ r ∈ ["len", "in", "min", "max", "minmax"],
      (strings.Split (sf.Tag.Get ValidateTag) Sep).head? ≠ some r) :
    Validate (some x) = conclude (Step.after e1 (runFields (some x) post [])) := by
  have hstep : validateField (some x) sf e1 = Step.next e1 := by
    simp only [validateField, hexp]
    cases hl : strings.Split (sf.Tag.Get ValidateTag) Sep with
    | nil => exact absurd hl (Split_ne_nil _ _)
    | cons rule rest =>
      have hr : ∀ r ∈ ["len", "in", "min", "max", "minmax"], rule ≠ r := by
        intro r hm e
        have := hrule r hm
        rw [hl, e] at this
        exact this rfl
      cases rest with
      | nil => simp [validateRule_unknown _ _ _ _ _ hr]
      | cons a more => simp [validateRule_unknown _ _ _ _ _ hr]
  exact Validate_of_next x pre post sf e1 _ hk hf hpre hstep

/-- C19, at a field annotated `foo:1` and at a field whose tag holds a `json`
key only, each before a field with a violation of its own. -/
theorem C19_unknown_rule_witness :
    Validate (structOf [(exportedField "A" "foo:1", intValue 1),
      (exportedField "B" "min:5", intValue 0)])
      = Result.returns (some (error.list [⟨Err.ErrWrongValue⟩])) ∧
    Validate (some ⟨⟨Kind.Struct, "main.T",
        [⟨"A", "", keyTag "json" "x"⟩, exportedField "B" "min:5"]⟩,
        [("A", intValue 1), ("B", intValue 0)]⟩)
      = Result.returns (some (error.list [⟨Err.ErrWrongValue⟩])) :=
  ⟨(C19_unknown_rule
      ⟨⟨Kind.Struct, "main.T", [exportedField "A" "foo:1", exportedField "B" "min:5"]⟩,
        [("A", intValue 1), ("B", intValue 0)]⟩
      [] [exportedField "B" "min:5"] (exportedField "A" "foo:1") []
      (by decide) (by decide) (by decide) (by decide) (by decide)).trans (by decide),
   (C19_unknown_rule
      ⟨⟨Kind.Struct, "main.T",
        [⟨"A", "", keyTag "json" "x"⟩, exportedField "B" "min:5"]⟩,
        [("A", intValue 1), ("B", intValue 0)]⟩
      [] [exportedField "B" "min:5"] ⟨"A", "", keyTag "json" "x"⟩ []
      (by decide) (by decide) (by decide) (by decide) (by decide)).trans (by decide)⟩

/-- C20 (as stated, refuted): in `in::a` the text after `in:` is `:a`, whose
first comma-separated element, `:a`, is not empty, yet the field gets
`ErrWrongIn`: the code reads the empty text between the two `:` as the
list. -/
theorem C20_counterexample :
    strings.Split ":a" ',' = [":a"] ∧
    strings.Split "in::a" Sep = ["in", "", "a"] ∧
    Validate (structOf [(exportedField "A" "in::a", stringValue ":a")])
      = Result.returns (some (error.list [⟨Err.ErrWrongIn⟩])) ∧
    Validate (structOf [(exportedField "A" "in::a", stringValue "a")])
      = Result.returns (some (error.list [⟨Err.ErrWrongIn⟩])) := by
  decide

/-- C20 (amended): for a visible field whose annotation splits on `:` into
`in`, a list `L` (the text up to the next `:`, if any) and possibly more, the
field gets `ErrWrongIn` when the first
comma-separated element of `L` is empty, whatever the later elements and the
value are, and otherwise no `ErrWrongIn`: the membership check decides
between no error and one `ErrWrongValue`. Here `e1` are the errors of the
fields declared before it, which the loop has got through. -/
theorem C20_in_first_element (x : Iface) (pre post : List StructField) (sf : StructField)
    (e1 : ValidationErrors) (f : Value) (L : String) (more : List String)
    (hk : x.typ.kind = Kind.Struct) (hf : x.typ.fields = pre ++ sf :: post)
    (hpre : runFields (some x) pre [] = Step.next e1)
    (hexp : sf.IsExported = true) (htag : sf.Tag.raw ≠ "")
    (hsplit : strings.Split (sf.Tag.Get ValidateTag) Sep = "in" :: L :: more)
    (hval : getField (some x) sf.Name = some f) :
    ((strings.Split L ',').head? = some "" →
      Validate (some x) = conclude (Step.after (e1 ++ [⟨Err.ErrWrongIn⟩])
        (runFields (some x) post []))) ∧
    ((strings.Split L ',').head? ≠ some "" →
      Validate (some x) = conclude (Step.after
        (if (f.kind = Kind.Int ∧ (∀ t ∈ strings.Split L ',', strconv.Atoi t ≠ none) ∧
              ∃ t ∈ strings.Split L ',', strconv.Atoi t = some f.i) ∨
            (f.kind = Kind.String ∧ f.s ∈ strings.Split L ',')
          then e1 else e1 ++ [⟨Err.ErrWrongValue⟩])
        (runFields (some x) post []))) := by
  have hstep := validateField_exported (some x) sf e1 "in" L more hexp htag hsplit
  cases hl : strings.Split L ',' with
  | nil => exact absurd hl (Split_ne_nil L ',')
  | cons first rest =>
    rw [validateRule_in _ _ _ _ first rest hl] at hstep
    constructor
    · intro h
      have he : first = "" := by simpa using h
      rw [if_pos he] at hstep
      exact Validate_of_next x pre post sf e1 _ hk hf hpre hstep
    · intro h
      have hne : first ≠ "" := by
        intro e
        exact h (by simp [e])
      rw [if_neg hne, checkValue_pred _ _ _ f e1 _ hval (inPred_iff (first :: rest) f)]
        at hstep
      exact Validate_of_next x pre post sf e1 _ hk hf hpre hstep

/-- C20 (amended), at the two examples of the claim on text fields: `in:,1` gives
`ErrWrongIn` although the value "1" is the second element, and `in:1,` is a
membership check, which the value "1" passes and the value "2" fails. -/
theorem C20_in_first_element_witness :
    Validate (structOf [(exportedField "A" "in:,1", stringValue "1")])
      = Result.returns (some (error.list [⟨Err.ErrWrongIn⟩])) ∧
    Validate (structOf [(exportedField "A" "in:1,", stringValue "1")])
      = Result.returns none ∧
    Validate (structOf [(exportedField "A" "in:1,", stringValue "2")])
      = Result.returns (some (error.list [⟨Err.ErrWrongValue⟩])) :=
  ⟨((C20_in_first_element
      ⟨⟨Kind.Struct, "main.T", [exportedField "A" "in:,1"]⟩, [("A", stringValue "1")]⟩
      [] [] (exportedField "A" "in:,1") [] (stringValue "1") ",1" []
      (by decide) (by decide) (by decide) (by decide) (by decide) (by decide)
      (by decide)).1 (by decide)).trans (by decide),
   ((C20_in_first_element
      ⟨⟨Kind.Struct, "main.T", [exportedField "A" "in:1,"]⟩, [("A", stringValue "1")]⟩
      [] [] (exportedField "A" "in:1,") [] (stringValue "1") "1," []
      (by decide) (by decide) (by decide) (by decide) (by decide) (by decide)
      (by decide)).2 (by decide)).trans (by decide),
   ((C20_in_first_element
      ⟨⟨Kind.Struct, "main.T", [exportedField "A" "in:1,"]⟩, [("A", stringValue "2")]⟩
      [] [] (exportedField "A" "in:1,") [] (stringValue "2") "1," []
      (by decide) (by decide) (by decide) (by decide) (by decide) (by decide)
      (by decide)).2 (by decide)).trans (by decide)⟩

end Validator
